import Mathlib

/-!
Verification of the semantic-index graph pipeline.

This file gives a shallow embedding of the pipeline's core functions —
call/mutation resolution (resolve_calls.py, indexer.py), impact metrics
(impact.py), culture multipliers (classify_culture.py), graph
normalization (graph_store.py), the doctor consistency check and the
build-metadata preservation logic (indexer.py), and the refactor
guardrail (query_tools.py) — and proves properties of them.

Modelling conventions:
 * Python floats are modelled as exact rationals.  Every constant that
   occurs (1.0, 0.5, 0.7, 0.35, 2.0, 1.4, 0.8, 0.2, 0.1, 0.75) and every
   rounded quantity the theorems touch has a small decimal denominator,
   so exact rational arithmetic and the source's binary floating point
   agree on all rounded-to-4-decimals results the theorems mention.
 * Python dicts are association lists with last-write-wins insert; dict
   iteration order is Python's insertion order.
 * A Python value used in a boolean position ("if qualifier:") is
   modelled by an explicit non-emptiness test; an optional string field
   is an Option String whose some "" case is falsy like the empty string.
 * Python's round is round-half-even on binary floats; it is modelled by
   Mathlib's round on rationals.  The two agree on every value whose
   exact result is not within float error of a decimal half; all rounded
   values appearing in the theorems below are of that kind.
 * Python's sorted is a stable mergesort; it is modelled by
   List.insertionSort, which is also stable, so the two produce the same
   list for every input and key.
-/

namespace SemIdx

/-- schemas.SCHEMA_VERSION -/
def SCHEMA_VERSION : String := "1.0.0"

/-- schemas.LAW_HARD_BLOCK_CALLER_THRESHOLD -/
def LAW_HARD_BLOCK_CALLER_THRESHOLD : Nat := 100

/-- schemas.AMBIGUITY_CONFIDENCE_THRESHOLD (0.75) -/
def AMBIGUITY_CONFIDENCE_THRESHOLD : ℚ := 75 / 100

/-- schemas.is_public_visibility -/
def is_public_visibility (value : String) : Bool :=
  value == "public" || value == "open"

/-- A symbol record, as produced by the extractor and flattener
(ast_parser.py / extract_atoms.py): container defaults to "global" and
visibility to "internal" at extraction time, so both fields are total
here. -/
structure SymbolRec where
  id : String
  name : String
  kind : String
  file : String
  line : Nat
  container : String
  arity : Nat
  visibility : String
  signature : String
  deriving DecidableEq, Repr

/-- A call event (extract_atoms.flatten_calls output). -/
structure CallEvent where
  source_symbol_id : String
  callee_name : String
  qualifier : Option String
  arity : Nat
  line : Nat
  deriving DecidableEq, Repr

/-- A call edge (resolve_calls.resolve_calls output). -/
structure CallEdge where
  source : String
  target : Option String
  target_name : String
  target_candidates : List String
  resolution : String
  confidence : ℚ
  qualifier : Option String
  arity : Nat
  line : Nat
  deriving DecidableEq, Repr

/-- A mutation event (extract_atoms.flatten_mutations output).  The
source id is optional because the resolver guards on its presence; the
extraction-time confidence estimate is optional because the resolver
reads it with a 0.8 default. -/
structure MutEvent where
  source_symbol_id : Option String
  target_name : String
  target_kind : String
  confidence : Option ℚ
  line : Nat
  deriving DecidableEq, Repr

/-- A mutation edge (indexer._resolve_mutation_edges output). -/
structure MutEdge where
  source : String
  target_symbol : Option String
  target_name : String
  target_candidates : List String
  target_kind : String
  resolution : String
  confidence : ℚ
  line : Nat
  deriving DecidableEq, Repr

/-- A file record (extract_atoms.build_file_records output); the nested
atom_counts mapping is flattened into three fields. -/
structure FileRec where
  id : String
  path : String
  hash : String
  culture : String
  atom_types : Nat
  atom_functions : Nat
  atom_variables : Nat
  mutation_count : Nat
  deriving DecidableEq, Repr

/-- A dependency edge (impact.build_dependency_edges output). -/
structure DepEdge where
  source_file : String
  target_file : String
  reason : String
  deriving DecidableEq, Repr

/-- Per-symbol impact metrics (impact.compute_impact). -/
structure Metrics where
  direct_callers : Nat
  depth2_callers : Nat
  fan_out : Nat
  mutation_count : Nat
  mutation_density : ℚ
  public_api : Bool
  culture_multiplier : ℚ
  score : ℚ
  unresolved_count : Nat
  unresolved_mean_confidence : ℚ
  unresolved_min_confidence : ℚ
  deriving DecidableEq, Repr

/-- Per-file impact metrics (impact.compute_impact). -/
structure FileMetrics where
  symbol_count : Nat
  aggregate_score : ℚ
  max_symbol_score : ℚ
  total_direct_callers : Nat
  total_depth2_callers : Nat
  total_unresolved : Nat
  deriving DecidableEq, Repr

/-- The impact section of the graph. -/
structure Impact where
  symbols : List (String × Metrics)
  files : List (String × FileMetrics)
  deriving DecidableEq, Repr

/-- The indexes section: a mapping from index name to a mapping from
key to a list of ids.  Every index this pipeline builds has exactly
this shape (graph_store.normalize_graph's non-dict and non-list
branches are not exercised by any index the indexer produces). -/
def Indexes : Type := List (String × List (String × List String))

instance : DecidableEq Indexes := by
  unfold Indexes; infer_instance

/-- Graph metadata (indexer.SemanticIndexer.build).  Graphs persisted by
this pipeline always carry all of these fields. -/
structure Meta where
  schema_version : String
  parser_version : String
  generated_at : String
  repo_root : String
  repo_digest : String
  content_digest : String
  build_duration_ms : Nat
  files_total : Nat
  files_reparsed : Nat
  files_reused : Nat
  deriving DecidableEq, Repr

/-- The aggregate graph document. -/
structure Graph where
  meta : Meta
  files : List FileRec
  symbols : List SymbolRec
  edges_calls : List CallEdge
  edges_mutations : List MutEdge
  edges_depends_on : List DepEdge
  impact : Impact
  indexes : Indexes
  deriving DecidableEq

/- ## Python dict / list modelling helpers -/

/-- Python dict write d[k] = v: replace in place if the key exists,
else append (insertion order preserved). -/
def dictInsert {α : Type} (d : List (String × α)) (k : String) (v : α) :
    List (String × α) :=
  match d with
  | [] => [(k, v)]
  | (k0, v0) :: rest =>
    if k0 = k then (k0, v) :: rest else (k0, v0) :: dictInsert rest k v

/-- Python d.get(k): first binding wins (a dict built with dictInsert
has unique keys, so this is the binding). -/
def dictLookup {α : Type} (d : List (String × α)) (k : String) : Option α :=
  match d with
  | [] => none
  | (k0, v0) :: rest => if k0 = k then some v0 else dictLookup rest k

/-- Python defaultdict(list) append d[k].append(v). -/
def dictAppend {α : Type} (d : List (String × List α)) (k : String) (v : α) :
    List (String × List α) :=
  match d with
  | [] => [(k, [v])]
  | (k0, vs) :: rest =>
    if k0 = k then (k0, vs ++ [v]) :: rest else (k0, vs) :: dictAppend rest k v

/-- Python set.add on an insertion-ordered list representation. -/
def insertAbsent (acc : List String) (c : String) : List String :=
  if c ∈ acc then acc else acc ++ [c]

/-- Python round(x, 4). -/
def round4 (q : ℚ) : ℚ := (round (q * 10000) : ℤ) / 10000

/-- Python min over a list of confidences (total: the callers guard
against the empty case, where the value is unused). -/
def qMin : List ℚ → ℚ
  | [] => 1
  | x :: xs => xs.foldl min x

/-- Python max over a list of scores (total: guarded at call sites). -/
def qMax : List ℚ → ℚ
  | [] => 0
  | x :: xs => xs.foldl max x

/-- Comparison by a key function, as Python's sorted(key=...) uses. -/
def keyLe {α : Type} {κ : Type} [LinearOrder κ] (k : α → κ) (a b : α) : Prop :=
  k a ≤ k b

instance {α κ : Type} [LinearOrder κ] (k : α → κ) : DecidableRel (keyLe k) :=
  fun a b => inferInstanceAs (Decidable (k a ≤ k b))

instance {α κ : Type} [LinearOrder κ] (k : α → κ) : IsTotal α (keyLe k) :=
  ⟨fun a b => le_total (k a) (k b)⟩

instance {α κ : Type} [LinearOrder κ] (k : α → κ) : IsTrans α (keyLe k) :=
  ⟨fun _ _ _ h1 h2 => le_trans h1 h2⟩

/-- Python sorted(l, key=k): a stable sort by the key. -/
def sortByKey {α : Type} {κ : Type} [LinearOrder κ] (k : α → κ) (l : List α) :
    List α :=
  l.insertionSort (keyLe k)

/-- graph_store._sorted_unique: sorted(set(values)). -/
def sorted_unique (values : List String) : List String :=
  values.dedup.insertionSort (· ≤ ·)

/- ## Call resolution (resolve_calls.py) -/

/-- The by_container_name_arity bucket of resolve_calls._index_functions:
a defaultdict bucket lists, in symbol order, the function symbols whose
(container, name, arity) equals the key. -/
def by_container_name_arity (symbols : List SymbolRec) (container name : String)
    (arity : Nat) : List SymbolRec :=
  symbols.filter fun s =>
    s.kind == "function" && s.container == container && s.name == name
      && s.arity == arity

/-- The by_container_name bucket of resolve_calls._index_functions. -/
def by_container_name (symbols : List SymbolRec) (container name : String) :
    List SymbolRec :=
  symbols.filter fun s =>
    s.kind == "function" && s.container == container && s.name == name

/-- The by_name_arity bucket of resolve_calls._index_functions. -/
def by_name_arity (symbols : List SymbolRec) (name : String) (arity : Nat) :
    List SymbolRec :=
  symbols.filter fun s =>
    s.kind == "function" && s.name == name && s.arity == arity

/-- The by_name bucket of resolve_calls._index_functions. -/
def by_name (symbols : List SymbolRec) (name : String) : List SymbolRec :=
  symbols.filter fun s => s.kind == "function" && s.name == name

/-- resolve_calls._pick_candidates.  "if qualifier:" is true exactly for
a present, non-empty qualifier string. -/
def pick_candidates (symbols : List SymbolRec) (call : CallEvent) :
    List SymbolRec :=
  let unqualified :=
    let c3 := by_name_arity symbols call.callee_name call.arity
    if c3 ≠ [] then c3 else by_name symbols call.callee_name
  match call.qualifier with
  | none => unqualified
  | some q =>
    if q = "" then unqualified
    else
      let c1 := by_container_name_arity symbols q call.callee_name call.arity
      if c1 ≠ [] then c1
      else
        let c2 := by_container_name symbols q call.callee_name
        if c2 ≠ [] then c2 else unqualified

/-- The per-event edge construction in resolve_calls.resolve_calls: the
len == 1 / len > 1 / len == 0 branches of the loop body. -/
def resolveCallEdge (symbols : List SymbolRec) (call : CallEvent) : CallEdge :=
  match pick_candidates symbols call with
  | [target] =>
    { source := call.source_symbol_id
      target := some target.id
      target_name := call.callee_name
      target_candidates := [target.id]
      resolution := "resolved"
      confidence := 1
      qualifier := call.qualifier
      arity := call.arity
      line := call.line }
  | [] =>
    { source := call.source_symbol_id
      target := none
      target_name := call.callee_name
      target_candidates := []
      resolution := "external"
      confidence := 0
      qualifier := call.qualifier
      arity := call.arity
      line := call.line }
  | candidates =>
    let candidate_ids := (candidates.map (·.id)).insertionSort (· ≤ ·)
    { source := call.source_symbol_id
      target := none
      target_name := call.callee_name
      target_candidates := candidate_ids
      resolution := "ambiguous"
      confidence := max (1/10) (round4 (1 / (candidate_ids.length : ℚ)))
      qualifier := call.qualifier
      arity := call.arity
      line := call.line }

/-- The final sort key of resolve_calls.resolve_calls, which is also the
edges_calls sort key of graph_store.normalize_graph:
(source, resolution, target or "", target_name, line). -/
def callEdgeKey (e : CallEdge) :
    String ×ₗ String ×ₗ String ×ₗ String ×ₗ ℕ :=
  toLex (e.source,
    toLex (e.resolution, toLex (e.target.getD "", toLex (e.target_name, e.line))))

/-- resolve_calls.resolve_calls: one edge per call event, then a stable
sort by the composite key. -/
def resolve_calls (symbols : List SymbolRec) (calls : List CallEvent) :
    List CallEdge :=
  sortByKey callEdgeKey (calls.map (resolveCallEdge symbols))

/- ## Mutation resolution (indexer._resolve_mutation_edges) -/

/-- symbols_by_id = {symbol["id"]: symbol}: last write wins. -/
def symbolsById (symbols : List SymbolRec) : List (String × SymbolRec) :=
  symbols.foldl (fun d s => dictInsert d s.id s) []

/-- The variable_index_file_container_name bucket of
indexer._resolve_mutation_edges. -/
def varIdxFileContainerName (symbols : List SymbolRec)
    (file container name : String) : List SymbolRec :=
  symbols.filter fun s =>
    s.kind == "variable" && s.file == file && s.container == container
      && s.name == name

/-- The variable_index_file_name bucket of
indexer._resolve_mutation_edges. -/
def varIdxFileName (symbols : List SymbolRec) (file name : String) :
    List SymbolRec :=
  symbols.filter fun s =>
    s.kind == "variable" && s.file == file && s.name == name

/-- The per-event edge construction of indexer._resolve_mutation_edges,
for an event whose source symbol was found. -/
def resolveMutationEdge (symbols : List SymbolRec) (event : MutEvent)
    (source : String) (source_symbol : SymbolRec) : MutEdge :=
  let candidates0 := varIdxFileContainerName symbols source_symbol.file
    source_symbol.container event.target_name
  let candidates :=
    if candidates0 = [] then
      varIdxFileName symbols source_symbol.file event.target_name
    else candidates0
  match candidates with
  | [target_symbol] =>
    { source := source
      target_symbol := some target_symbol.id
      target_name := event.target_name
      target_candidates := [target_symbol.id]
      target_kind := event.target_kind
      resolution := "resolved"
      confidence := 1
      line := event.line }
  | [] =>
    { source := source
      target_symbol := none
      target_name := event.target_name
      target_candidates := []
      target_kind := event.target_kind
      resolution := "external"
      confidence := event.confidence.getD (8/10)
      line := event.line }
  | many =>
    let ids := (many.map (·.id)).insertionSort (· ≤ ·)
    { source := source
      target_symbol := none
      target_name := event.target_name
      target_candidates := ids
      target_kind := event.target_kind
      resolution := "ambiguous"
      confidence := max (1/10) (round4 (1 / (ids.length : ℚ)))
      line := event.line }

/-- The sort key of indexer._resolve_mutation_edges:
(source, resolution, target_symbol or "", target_name, line). -/
def mutEdgeSortKey (e : MutEdge) :
    String ×ₗ String ×ₗ String ×ₗ String ×ₗ ℕ :=
  toLex (e.source,
    toLex (e.resolution,
      toLex (e.target_symbol.getD "", toLex (e.target_name, e.line))))

/-- The loop body of indexer._resolve_mutation_edges: an event whose
source symbol id is absent from the symbol table is skipped ("if not
source_symbol: continue"), every other event appends exactly one
edge. -/
def mutStep (symbols : List SymbolRec) (acc : List MutEdge)
    (event : MutEvent) : List MutEdge :=
  match event.source_symbol_id with
  | none => acc
  | some sid =>
    match dictLookup (symbolsById symbols) sid with
    | none => acc
    | some source_symbol =>
      acc ++ [resolveMutationEdge symbols event sid source_symbol]

/-- indexer._resolve_mutation_edges: the event loop, then a stable
sort. -/
def resolve_mutation_edges (symbols : List SymbolRec)
    (mutations : List MutEvent) : List MutEdge :=
  sortByKey mutEdgeSortKey (mutations.foldl (mutStep symbols) [])

/- ## Impact engine (impact.py) -/

/-- classify_culture.culture_multiplier. -/
def culture_multiplier (culture : String) : ℚ :=
  if culture = "Law" then 14/10
  else if culture = "View" then 8/10
  else if culture = "Auditor" then 2/10
  else 1

/-- An Option String used in a boolean position: true for a present,
non-empty string. -/
def optTruthy (o : Option String) : Bool := o.getD "" != ""

/-- The callers adjacency of impact.compute_impact: the set
callers[t] = {source of a resolved call edge with truthy source and
target t}, as an insertion-ordered duplicate-free list (a falsy target
is never inserted as a key, so callersList of "" is empty). -/
def callersList (edges : List CallEdge) (t : String) : List String :=
  edges.foldl
    (fun acc e =>
      if e.resolution == "resolved" && e.source != "" && optTruthy e.target
          && e.target == some t then
        insertAbsent acc e.source
      else acc)
    []

/-- The callees adjacency of impact.compute_impact. -/
def calleesList (edges : List CallEdge) (s : String) : List String :=
  edges.foldl
    (fun acc e =>
      if e.resolution == "resolved" && e.source != "" && optTruthy e.target
          && e.source == s && s != "" then
        insertAbsent acc (e.target.getD "")
      else acc)
    []

/-- One BFS expansion of impact._reverse_reachable_depth_two: every
caller of node not yet seen is appended to seen (and, in the source, to
the queue). -/
def expandNode (rev : String → List String) (seen : List String)
    (node : String) : List String :=
  (rev node).foldl insertAbsent seen

/-- impact._reverse_reachable_depth_two.  The FIFO queue starts at
(target, 0) and entries of depth ≥ 2 are skipped, so the loop expands
exactly the target and then, in insertion order, each node first seen
at depth 1; nodes first seen at depth 2 are popped but never expanded.
The set-iteration order inside one expansion does not affect the final
seen set, which is what is returned. -/
def reverse_reachable_depth_two (target : String)
    (rev : String → List String) : List String :=
  let seen1 := expandNode rev [] target
  seen1.foldl (expandNode rev) seen1

/-- The unresolved_outbound confidences of a symbol in
impact.compute_impact: confidences of ambiguous/external call edges
with truthy source equal to the symbol, in edge order. -/
def unresolvedOutbound (edges : List CallEdge) (sid : String) : List ℚ :=
  (edges.filter fun e =>
      (e.resolution == "ambiguous" || e.resolution == "external")
        && e.source != "" && e.source == sid).map (·.confidence)

/-- The unresolved_inbound confidences of a symbol: one copy of the
edge's confidence per occurrence of the symbol in the edge's
target_candidates, over ambiguous/external edges with truthy source, in
edge order. -/
def unresolvedInbound (edges : List CallEdge) (sid : String) : List ℚ :=
  ((edges.filter fun e =>
      (e.resolution == "ambiguous" || e.resolution == "external")
        && e.source != "").map fun e =>
    (e.target_candidates.filter (· == sid)).map fun _ => e.confidence).flatten

/-- The per-symbol loop body of impact.compute_impact. -/
def impactMetrics (edges_calls : List CallEdge)
    (edges_mutations : List MutEdge) (culture_by_file : List (String × String))
    (sym : SymbolRec) : Metrics :=
  let culture := (dictLookup culture_by_file sym.file).getD "Citizen"
  let direct_callers := (callersList edges_calls sym.id).length
  let depth2_callers :=
    (reverse_reachable_depth_two sym.id (callersList edges_calls)).length
  let fan_out := (calleesList edges_calls sym.id).length
  let mutation_count :=
    (edges_mutations.filter fun e => e.source != "" && e.source == sym.id).length
  let mutation_density :=
    round4 ((mutation_count : ℚ) / (max 1 (fan_out + 1) : ℕ))
  let public_api := is_public_visibility sym.visibility
  let unresolved_scores :=
    unresolvedOutbound edges_calls sym.id ++ unresolvedInbound edges_calls sym.id
  let unresolved_count := unresolved_scores.length
  let unresolved_mean_confidence :=
    if unresolved_scores = [] then 1
    else round4 (unresolved_scores.sum / (unresolved_scores.length : ℚ))
  let unresolved_min_confidence :=
    if unresolved_scores = [] then 1 else round4 (qMin unresolved_scores)
  let base_score :=
    (direct_callers : ℚ) * 1 + (depth2_callers : ℚ) * (5/10)
      + (fan_out : ℚ) * (7/10) + (mutation_count : ℚ) * (35/100)
      + (if public_api then 2 else 0)
  { direct_callers := direct_callers
    depth2_callers := depth2_callers
    fan_out := fan_out
    mutation_count := mutation_count
    mutation_density := mutation_density
    public_api := public_api
    culture_multiplier := culture_multiplier culture
    score := round4 (base_score * culture_multiplier culture)
    unresolved_count := unresolved_count
    unresolved_mean_confidence := unresolved_mean_confidence
    unresolved_min_confidence := unresolved_min_confidence }

/-- The per-file aggregation loop of impact.compute_impact (every sid in
symbols_by_file is a key of symbol_metrics, and the source re-checks
this with "if sid in symbol_metrics", modelled by filterMap). -/
def fileMetricsOf (symbolMetrics : List (String × Metrics))
    (sids : List String) : FileMetrics :=
  let ms := sids.filterMap fun sid => dictLookup symbolMetrics sid
  let scores := ms.map (·.score)
  { symbol_count := sids.length
    aggregate_score := round4 scores.sum
    max_symbol_score := if scores = [] then 0 else round4 (qMax scores)
    total_direct_callers := (ms.map (·.direct_callers)).sum
    total_depth2_callers := (ms.map (·.depth2_callers)).sum
    total_unresolved := (ms.map (·.unresolved_count)).sum }

/-- impact.compute_impact: the per-symbol metrics dict (built in symbol
order, last write wins on a duplicate id) and the per-file aggregates,
both returned key-sorted. -/
def compute_impact (symbols : List SymbolRec) (edges_calls : List CallEdge)
    (edges_mutations : List MutEdge)
    (culture_by_file : List (String × String)) : Impact :=
  let symbol_metrics := symbols.foldl
    (fun d sym =>
      dictInsert d sym.id (impactMetrics edges_calls edges_mutations
        culture_by_file sym))
    []
  let symbols_by_file := symbols.foldl
    (fun d sym => dictAppend d sym.file sym.id) []
  let file_metrics := symbols_by_file.map
    (fun p => (p.1, fileMetricsOf symbol_metrics p.2))
  { symbols := sortByKey Prod.fst symbol_metrics
    files := sortByKey Prod.fst file_metrics }

/- ## Refactor guardrail (query_tools.GraphQueryEngine.refactor_guardrail) -/

/-- The decision slice of the guardrail's return value; the static
message/do/dont strings of the source are omitted, the reason string is
kept. -/
structure GuardrailResult where
  symbol_id : String
  symbol_name : String
  signature : String
  culture : String
  direct_callers : Nat
  depth2_callers : Nat
  fan_out : Nat
  unresolved_count : Nat
  unresolved_min_confidence : ℚ
  guardrail : String
  hard_block : Bool
  reason : String
  deriving DecidableEq, Repr

/-- The if/elif decision chain of refactor_guardrail, returning the
guardrail tag and the reason string. -/
def guardrailTag (culture : String) (direct_callers fan_out : Nat)
    (unresolved_count : Nat) (unresolved_min_conf : ℚ) : String × String :=
  if culture = "Auditor" then
    ("auditor_advisory", "Auditor symbols are excluded from hard signature blocks.")
  else if 0 < unresolved_count
      ∧ unresolved_min_conf < AMBIGUITY_CONFIDENCE_THRESHOLD then
    ("high_risk_manual_review",
      "Low-confidence ambiguous resolution detected; fail-closed policy requires manual review before refactor.")
  else if culture = "Law"
      ∧ LAW_HARD_BLOCK_CALLER_THRESHOLD ≤ direct_callers then
    ("hard_block_signature_change",
      "Law symbol exceeds caller threshold; signature changes are blocked by policy.")
  else if culture = "View" then
    ("view_soft_warn", "View symbol: report impact radius and avoid broad cascading edits.")
  else if 40 ≤ direct_callers + fan_out then
    ("citizen_high_surface",
      "Citizen symbol has high connectivity; stage refactor with compatibility shims.")
  else
    ("allow_change_with_tests", "No hard policy triggers hit.")

/-- The metrics defaults of refactor_guardrail for a symbol absent from
the impact table: each field that the guardrail reads gets the default
of the corresponding metrics.get call (0 for the counts, 1.0 for the
minimum confidence); the unread fields are irrelevant. -/
def defaultMetrics : Metrics :=
  { direct_callers := 0
    depth2_callers := 0
    fan_out := 0
    mutation_count := 0
    mutation_density := 0
    public_api := false
    culture_multiplier := 1
    score := 0
    unresolved_count := 0
    unresolved_mean_confidence := 1
    unresolved_min_confidence := 1 }

/-- file_by_id = {file["id"]: file}. -/
def filesById (files : List FileRec) : List (String × FileRec) :=
  files.foldl (fun d f => dictInsert d f.id f) []

/-- query_tools.GraphQueryEngine.refactor_guardrail; none models the
KeyError raised on an unknown symbol id. -/
def refactor_guardrail (g : Graph) (symbol_id : String) :
    Option GuardrailResult :=
  match dictLookup (symbolsById g.symbols) symbol_id with
  | none => none
  | some symbol =>
    let culture :=
      ((dictLookup (filesById g.files) symbol.file).map (·.culture)).getD "Citizen"
    let metrics := (dictLookup g.impact.symbols symbol_id).getD defaultMetrics
    let tagReason := guardrailTag culture metrics.direct_callers metrics.fan_out
      metrics.unresolved_count metrics.unresolved_min_confidence
    some
      { symbol_id := symbol_id
        symbol_name := symbol.name
        signature := symbol.signature
        culture := culture
        direct_callers := metrics.direct_callers
        depth2_callers := metrics.depth2_callers
        fan_out := metrics.fan_out
        unresolved_count := metrics.unresolved_count
        unresolved_min_confidence := metrics.unresolved_min_confidence
        guardrail := tagReason.1
        hard_block := tagReason.1 == "hard_block_signature_change"
        reason := tagReason.2 }

/- ## Doctor consistency check (indexer.doctor_check) -/

/-- schemas.validate_graph_shape on a loaded graph document.  In this
typed embedding every top-level key is present and every list-valued
section is a list, so only the schema_version comparison can fail. -/
def validate_graph_shape (g : Graph) : List String :=
  if g.meta.schema_version = SCHEMA_VERSION then []
  else ["schema_version mismatch"]

/-- The error list computed by indexer.doctor_check on a loaded graph
(the file-existence and json-load failures are I/O and outside this
embedding): shape errors, then per call edge a truthy-source check and a
truthy-target check against the symbol ids, then dependency-edge
endpoint checks against the file ids, then the symbols_by_file index
entries against the symbol ids.  Mutation edges and the other index
mappings are never examined. -/
def doctor_check_errors (g : Graph) : List String :=
  let symbol_ids := g.symbols.map (·.id)
  let file_ids := g.files.map (·.id)
  let callErrs := (g.edges_calls.map fun e =>
    (if e.source != "" && !(symbol_ids.contains e.source) then
      ["call edge source missing symbol: " ++ e.source]
    else []) ++
    (if optTruthy e.target && !(symbol_ids.contains (e.target.getD "")) then
      ["call edge target missing symbol: " ++ e.target.getD ""]
    else [])).flatten
  let depErrs := (g.edges_depends_on.map fun e =>
    (if !(file_ids.contains e.source_file) then
      ["dependency edge source file missing: " ++ e.source_file]
    else []) ++
    (if !(file_ids.contains e.target_file) then
      ["dependency edge target file missing: " ++ e.target_file]
    else [])).flatten
  let idxErrs := (((dictLookup g.indexes "symbols_by_file").getD []).map
    fun p => (p.2.filter fun sid => !(symbol_ids.contains sid)).map
      fun sid => "index references missing symbol: " ++ sid).flatten
  validate_graph_shape g ++ callErrs ++ depErrs ++ idxErrs

/-- doctor_check's boolean verdict on a loaded graph: len(errors) == 0. -/
def doctor_check_ok (g : Graph) : Bool :=
  doctor_check_errors g = []

/- ## Graph normalization (graph_store.normalize_graph) -/

/-- The edges_mutations sort key of normalize_graph:
(source, target_symbol or "", target_name, line) — note it has no
resolution component, unlike the sort inside the mutation resolver. -/
def mutEdgeNormKey (e : MutEdge) : String ×ₗ String ×ₗ String ×ₗ ℕ :=
  toLex (e.source, toLex (e.target_symbol.getD "", toLex (e.target_name, e.line)))

/-- The edges_depends_on sort key of normalize_graph. -/
def depEdgeKey (e : DepEdge) : String ×ₗ String :=
  toLex (e.source_file, e.target_file)

/-- The indexes normalization of normalize_graph: outer mapping
key-sorted, each inner mapping key-sorted with its list values passed
through _sorted_unique.  Sorting by key and rewriting values commute
(both sorts are stable and the rewrite keeps keys), so the value rewrite
is applied first here. -/
def normalizeIndexes (idx : Indexes) : Indexes :=
  sortByKey Prod.fst
    (idx.map fun p =>
      (p.1, sortByKey Prod.fst (p.2.map fun q => (q.1, sorted_unique q.2))))

/-- graph_store.normalize_graph. -/
def normalize_graph (g : Graph) : Graph :=
  { g with
    files := sortByKey (·.path) g.files
    symbols := sortByKey (·.id) g.symbols
    edges_calls := sortByKey callEdgeKey g.edges_calls
    edges_mutations := sortByKey mutEdgeNormKey g.edges_mutations
    edges_depends_on := sortByKey depEdgeKey g.edges_depends_on
    impact :=
      { symbols := sortByKey Prod.fst g.impact.symbols
        files := sortByKey Prod.fst g.impact.files }
    indexes := normalizeIndexes g.indexes }

/- ## Build metadata preservation (indexer.SemanticIndexer.build) -/

/-- The freshness fields of a build. -/
structure BuildMetaFields where
  generated_at : String
  build_duration_ms : Nat
  files_reparsed : Nat
  files_reused : Nat
  deriving DecidableEq, Repr

/-- The generated_at/duration/reparsed/reused selection of
SemanticIndexer.build: if a previously persisted graph exists and its
meta's content_digest equals the new build's content digest, the
previous build's four freshness fields are persisted; otherwise the
fresh values are. -/
def persistedBuildFields (existing_graph : Option Graph)
    (content_digest : String) (fresh : BuildMetaFields) : BuildMetaFields :=
  match existing_graph with
  | none => fresh
  | some g =>
    if g.meta.content_digest = content_digest then
      { generated_at := g.meta.generated_at
        build_duration_ms := g.meta.build_duration_ms
        files_reparsed := g.meta.files_reparsed
        files_reused := g.meta.files_reused }
    else fresh

/- ## Spec-side definitions (for the refinement claims) -/

/-- First non-empty list of a list of lists, else empty. -/
def firstNonEmpty {α : Type} (ls : List (List α)) : List α :=
  ((ls.find? fun l => !l.isEmpty).getD [])

/-- The candidate choice as the spec words it: the lookup keys from
most to least specific — (qualifier, name, arity), (qualifier, name),
(name, arity), (name) — taking the first non-empty result; the two
qualified keys exist only when the call carries a (non-empty)
qualifier. -/
def pick_candidates_spec (symbols : List SymbolRec) (call : CallEvent) :
    List SymbolRec :=
  let qualifiedKeys :=
    match call.qualifier with
    | none => []
    | some q =>
      if q = "" then []
      else
        [by_container_name_arity symbols q call.callee_name call.arity,
          by_container_name symbols q call.callee_name]
  firstNonEmpty
    (qualifiedKeys ++
      [by_name_arity symbols call.callee_name call.arity,
        by_name symbols call.callee_name])

/-- A decision list evaluated in priority order: the tag of the first
rule whose condition holds, else the allow-with-tests default. -/
def evalRules (rules : List (Bool × String)) : String :=
  ((rules.find? (·.1)).map (·.2)).getD "allow_change_with_tests"

/-- Modelled from the spec: guardrail rules (1)-(5) in the spec's fixed
priority order, with rule (5) restricted to Citizen-culture symbols
exactly as the spec states it. -/
def guardrail_spec_rules (culture : String) (dc fo uc : Nat) (umc : ℚ) :
    List (Bool × String) :=
  [(decide (culture = "Auditor"), "auditor_advisory"),
    (decide (0 < uc) && decide (umc < AMBIGUITY_CONFIDENCE_THRESHOLD),
      "high_risk_manual_review"),
    (decide (culture = "Law") && decide (LAW_HARD_BLOCK_CALLER_THRESHOLD ≤ dc),
      "hard_block_signature_change"),
    (decide (culture = "View"), "view_soft_warn"),
    (decide (culture = "Citizen") && decide (40 ≤ dc + fo),
      "citizen_high_surface")]

/-- The spec's guardrail decision tree. -/
def guardrail_spec_tag (culture : String) (dc fo uc : Nat) (umc : ℚ) :
    String :=
  evalRules (guardrail_spec_rules culture dc fo uc umc)

/-- The amended guardrail rules: identical to guardrail_spec_rules
except that rule (5) tests only the connectivity threshold, with no
culture condition — so a Law symbol below the hard-block caller
threshold can also reach citizen_high_surface. -/
def guardrail_amended_rules (culture : String) (dc fo uc : Nat) (umc : ℚ) :
    List (Bool × String) :=
  [(decide (culture = "Auditor"), "auditor_advisory"),
    (decide (0 < uc) && decide (umc < AMBIGUITY_CONFIDENCE_THRESHOLD),
      "high_risk_manual_review"),
    (decide (culture = "Law") && decide (LAW_HARD_BLOCK_CALLER_THRESHOLD ≤ dc),
      "hard_block_signature_change"),
    (decide (culture = "View"), "view_soft_warn"),
    (decide (40 ≤ dc + fo), "citizen_high_surface")]

/-- The amended guardrail decision tree. -/
def guardrail_amended_tag (culture : String) (dc fo uc : Nat) (umc : ℚ) :
    String :=
  evalRules (guardrail_amended_rules culture dc fo uc umc)

/-- Modelled from the spec: the depth-2 caller count as the size of the
set reachable by at most two hops of reverse adjacency, excluding the
symbol itself. -/
def depth2_callers_spec (target : String) (rev : String → List String) : ℕ :=
  (((rev target).toFinset
      ∪ (rev target).toFinset.biUnion fun b => (rev b).toFinset)
    \ {target}).card

/- ## Concrete example data -/

/-- Metadata for the example graphs. -/
def exMeta : Meta :=
  { schema_version := SCHEMA_VERSION
    parser_version := "swiftc-dump-parse-v1"
    generated_at := "2026-01-01T00:00:00+00:00"
    repo_root := "/repo"
    repo_digest := "deadbeef"
    content_digest := "digest-a"
    build_duration_ms := 12
    files_total := 1
    files_reparsed := 1
    files_reused := 0 }

/-- A function-symbol template for examples. -/
def mkFun (id name container file : String) (arity : Nat) : SymbolRec :=
  { id := id
    name := name
    kind := "function"
    file := file
    line := 1
    container := container
    arity := arity
    visibility := "internal"
    signature := name ++ "()" }

/-- Three same-name same-arity global functions: an ambiguous pool of
three candidates. -/
def c2Symbols : List SymbolRec :=
  [mkFun "f1" "f" "global" "/a.swift" 0,
    mkFun "f2" "f" "global" "/b.swift" 0,
    mkFun "f3" "f" "global" "/c.swift" 0]

/-- An unqualified arity-0 call to the triply-defined name. -/
def c2Call : CallEvent :=
  { source_symbol_id := "s0"
    callee_name := "f"
    qualifier := none
    arity := 0
    line := 9 }

/-- Resolved call edges forming a 2-cycle A -> B -> A. -/
def cycEdges : List CallEdge :=
  [{ source := "A"
     target := some "B"
     target_name := "b"
     target_candidates := ["B"]
     resolution := "resolved"
     confidence := 1
     qualifier := none
     arity := 0
     line := 2 },
    { source := "B"
      target := some "A"
      target_name := "a"
      target_candidates := ["A"]
      resolution := "resolved"
      confidence := 1
      qualifier := none
      arity := 0
      line := 3 }]

/-- The symbol A of the 2-cycle. -/
def cycSymA : SymbolRec := mkFun "A" "a" "global" "/cyc.swift" 0

/-- A Law file for the rule-5 counterexample. -/
def lawFile : FileRec :=
  { id := "/repo/Config/law.swift"
    path := "Config/law.swift"
    hash := "h1"
    culture := "Law"
    atom_types := 0
    atom_functions := 1
    atom_variables := 0
    mutation_count := 0 }

/-- A Law-culture symbol with 50 direct callers, fan-out 0 and no
unresolved evidence, as recorded in its stored impact metrics. -/
def lawSym50 : SymbolRec := mkFun "LAW50" "rate" "global" lawFile.id 0

/-- Stored metrics of lawSym50. -/
def lawMetrics50 : Metrics := { defaultMetrics with direct_callers := 50 }

/-- A persisted graph containing only the Law symbol above. -/
def gLaw50 : Graph :=
  { meta := exMeta
    files := [lawFile]
    symbols := [lawSym50]
    edges_calls := []
    edges_mutations := []
    edges_depends_on := []
    impact := { symbols := [(lawSym50.id, lawMetrics50)], files := [] }
    indexes := [] }

/-- A Citizen file for the mutation-evidence counterexample. -/
def citFile : FileRec :=
  { id := "/repo/Sources/cit.swift"
    path := "Sources/cit.swift"
    hash := "h2"
    culture := "Citizen"
    atom_types := 0
    atom_functions := 1
    atom_variables := 2
    mutation_count := 1 }

/-- The Citizen symbol whose only unresolved evidence is a mutation
edge. -/
def citSym : SymbolRec := mkFun "CIT" "run" "global" citFile.id 0

/-- An ambiguous mutation edge with confidence 0.5 out of citSym. -/
def citMutEdge : MutEdge :=
  { source := citSym.id
    target_symbol := none
    target_name := "x"
    target_candidates := ["v1", "v2"]
    target_kind := "member"
    resolution := "ambiguous"
    confidence := 1/2
    line := 3 }

/-- The graph whose impact table is computed by the impact engine from
the mutation edge above (no call edges at all). -/
def gCit : Graph :=
  { meta := exMeta
    files := [citFile]
    symbols := [citSym]
    edges_calls := []
    edges_mutations := [citMutEdge]
    edges_depends_on := []
    impact := compute_impact [citSym] [] [citMutEdge] [(citFile.id, "Citizen")]
    indexes := [] }

/-- Two distinct external call edges sharing the composite sort key
(source, resolution, target or "", target_name, line) but differing in
arity: two calls to the same unknown name on one line. -/
def tieEdge1 : CallEdge :=
  { source := "S"
    target := none
    target_name := "g"
    target_candidates := []
    resolution := "external"
    confidence := 0
    qualifier := none
    arity := 1
    line := 5 }

/-- The second tie-key edge. -/
def tieEdge2 : CallEdge := { tieEdge1 with arity := 2 }

/-- A graph holding the two tie-key edges in one order. -/
def gTieA : Graph :=
  { meta := exMeta
    files := []
    symbols := []
    edges_calls := [tieEdge1, tieEdge2]
    edges_mutations := []
    edges_depends_on := []
    impact := { symbols := [], files := [] }
    indexes := [] }

/-- The same graph with the two tie-key edges swapped. -/
def gTieB : Graph := { gTieA with edges_calls := [tieEdge2, tieEdge1] }

/-- A graph that passes the doctor check while holding a mutation edge
whose source names no existing symbol. -/
def gGhost : Graph :=
  { meta := exMeta
    files := [citFile]
    symbols := [citSym]
    edges_calls := []
    edges_mutations :=
      [{ source := "ghost"
         target_symbol := some "also-ghost"
         target_name := "x"
         target_candidates := []
         target_kind := "member"
         resolution := "external"
         confidence := 8/10
         line := 7 }]
    edges_depends_on := []
    impact := { symbols := [], files := [] }
    indexes := [("symbols_by_file", [(citFile.id, [citSym.id])])] }

/-- A Law symbol meeting the hard-block caller threshold but carrying
low-confidence unresolved evidence. -/
def lawSymRisk : SymbolRec := mkFun "LAWR" "charge" "global" lawFile.id 0

/-- Stored metrics of lawSymRisk: 120 direct callers, 3 unresolved
edges at minimum confidence 0.2. -/
def lawRiskMetrics : Metrics :=
  { defaultMetrics with
    direct_callers := 120
    unresolved_count := 3
    unresolved_min_confidence := 2/10 }

/-- A graph holding the risky Law symbol. -/
def gLawRisk : Graph :=
  { gLaw50 with
    symbols := [lawSymRisk]
    impact := { symbols := [(lawSymRisk.id, lawRiskMetrics)], files := [] } }

/-- The symbols of the resolver example from the test suite: A.tick,
B.tick, C.run. -/
def tickA : SymbolRec := mkFun "/tmp/A.swift::A::tick" "tick" "A" "/tmp/A.swift" 0

/-- B.tick. -/
def tickB : SymbolRec := mkFun "/tmp/B.swift::B::tick" "tick" "B" "/tmp/B.swift" 0

/-- C.run. -/
def runC : SymbolRec := mkFun "/tmp/C.swift::C::run" "run" "C" "/tmp/C.swift" 0

/-- The resolver-example symbol pool. -/
def exSymbols : List SymbolRec := [tickA, tickB, runC]

/-- A call to tick qualified by A: exactly one candidate. -/
def exQualCall : CallEvent :=
  { source_symbol_id := runC.id
    callee_name := "tick"
    qualifier := some "A"
    arity := 0
    line := 10 }

/-- A variable symbol x inside container F of one file. -/
def varX : SymbolRec :=
  { id := "VARX"
    name := "x"
    kind := "variable"
    file := "/m.swift"
    line := 2
    container := "F"
    arity := 0
    visibility := "internal"
    signature := "x" }

/-- The function F that mutates x. -/
def funF : SymbolRec := mkFun "FUNF" "F" "global" "/m.swift" 0

/-- A mutation event from funF that resolves to varX. -/
def goodMut : MutEvent :=
  { source_symbol_id := some funF.id
    target_name := "x"
    target_kind := "member"
    confidence := some 1
    line := 4 }

/-- A mutation event whose source symbol id names no symbol. -/
def orphanMut : MutEvent :=
  { source_symbol_id := some "ghost"
    target_name := "y"
    target_kind := "member"
    confidence := some 1
    line := 5 }

/-- The edge the resolver emits for goodMut. -/
def resolvedEdgeW : MutEdge :=
  { source := funF.id
    target_symbol := some varX.id
    target_name := "x"
    target_candidates := [varX.id]
    target_kind := "member"
    resolution := "resolved"
    confidence := 1
    line := 4 }

/-- A small file record for the normalization witness. -/
def w7File1 : FileRec :=
  { id := "/a.swift"
    path := "a.swift"
    hash := "ha"
    culture := "Citizen"
    atom_types := 0
    atom_functions := 0
    atom_variables := 0
    mutation_count := 0 }

/-- A second file record with a distinct path. -/
def w7File2 : FileRec := { w7File1 with id := "/b.swift", path := "b.swift" }

/-- A graph for the normalization witness: two files in one order, and
an index whose value list carries a duplicate. -/
def g7w1 : Graph :=
  { meta := exMeta
    files := [w7File1, w7File2]
    symbols := []
    edges_calls := []
    edges_mutations := []
    edges_depends_on := []
    impact := { symbols := [], files := [] }
    indexes := [("symbols_by_file", [("/a.swift", ["s2", "s1", "s1"])])] }

/-- The same snapshot assembled in the other order. -/
def g7w2 : Graph :=
  { g7w1 with
    files := [w7File2, w7File1]
    indexes := [("symbols_by_file", [("/a.swift", ["s1", "s1", "s2"])])] }

/-- Fresh build fields for the metadata-preservation witness. -/
def freshFieldsW : BuildMetaFields :=
  { generated_at := "2026-02-02T00:00:00+00:00"
    build_duration_ms := 99
    files_reparsed := 7
    files_reused := 0 }

/-- Relation between two association lists that hold the same mapping:
the first has no duplicate keys, and some reordering of it matches the
second entrywise with keys equal and values related by f. -/
def DictEquiv {β : Type} (f : β → β → Prop) (d₁ d₂ : List (String × β)) :
    Prop :=
  (d₁.map Prod.fst).Nodup ∧
    ∃ mid, d₁.Perm mid ∧
      List.Forall₂ (fun p q => p.1 = q.1 ∧ f p.2 q.2) mid d₂

/-- Two index sections hold the same mapping when the outer mapping and
each inner mapping agree up to entry order, and corresponding id lists
are permutations. -/
def IndexesEquiv (i1 i2 : Indexes) : Prop :=
  DictEquiv (DictEquiv fun v₁ v₂ : List String => v₁.Perm v₂) i1 i2

/- ## General lemmas -/

theorem keyLe_def {α κ : Type} [LinearOrder κ] (k : α → κ) (a b : α) :
    keyLe k a b ↔ k a ≤ k b := Iff.rfl

/-- Two sorted lists of the same multiset coincide, provided the order
is antisymmetric on the elements involved. -/
theorem sorted_perm_antisymm {α : Type} (r : α → α → Prop) (l₁ : List α) :
    ∀ l₂ : List α, l₁.Perm l₂ →
      (∀ a ∈ l₁, ∀ b ∈ l₁, r a b → r b a → a = b) →
      l₁.Sorted r → l₂.Sorted r → l₁ = l₂ := by
  induction l₁ with
  | nil =>
    intro l₂ hp _ _ _
    exact hp.nil_eq
  | cons a t ih =>
    intro l₂ hp hanti hs₁ hs₂
    cases l₂ with
    | nil => exact absurd hp.symm.nil_eq (by simp)
    | cons b t₂ =>
      obtain ⟨h₁head, h₁tail⟩ := List.sorted_cons.mp hs₁
      obtain ⟨h₂head, h₂tail⟩ := List.sorted_cons.mp hs₂
      have hab : a = b := by
        by_cases hne : a = b
        · exact hne
        · have hbt : b ∈ t := by
            have hbl : b ∈ a :: t := hp.symm.subset (List.mem_cons_self b t₂)
            rcases List.mem_cons.mp hbl with h | h
            · exact absurd h.symm hne
            · exact h
          have hat : a ∈ t₂ := by
            have hal : a ∈ b :: t₂ := hp.subset (List.mem_cons_self a t)
            rcases List.mem_cons.mp hal with h | h
            · exact absurd h hne
            · exact h
          exact hanti a (List.mem_cons_self a t) b (List.mem_cons_of_mem a hbt)
            (h₁head b hbt) (h₂head a hat)
      subst hab
      have hanti' : ∀ x ∈ t, ∀ y ∈ t, r x y → r y x → x = y := fun x hx y hy =>
        hanti x (List.mem_cons_of_mem a hx) y (List.mem_cons_of_mem a hy)
      rw [ih t₂ hp.cons_inv hanti' h₁tail h₂tail]

/-- A stable sort is determined by the multiset when the order is
antisymmetric on the elements involved. -/
theorem insertionSort_eq_of_perm {α : Type} (r : α → α → Prop) [DecidableRel r]
    [IsTotal α r] [IsTrans α r] {l₁ l₂ : List α} (hp : l₁.Perm l₂)
    (hanti : ∀ a ∈ l₁, ∀ b ∈ l₁, r a b → r b a → a = b) :
    l₁.insertionSort r = l₂.insertionSort r := by
  apply sorted_perm_antisymm r (l₁.insertionSort r) (l₂.insertionSort r)
    ((List.perm_insertionSort r l₁).trans
      (hp.trans (List.perm_insertionSort r l₂).symm))
    (fun a ha b hb =>
      hanti a ((List.perm_insertionSort r l₁).subset ha) b
        ((List.perm_insertionSort r l₁).subset hb))
    (List.sorted_insertionSort r l₁) (List.sorted_insertionSort r l₂)

/-- A key-based sort is determined by the multiset when no two distinct
elements share a key. -/
theorem sortByKey_eq_of_perm {α κ : Type} [LinearOrder κ] (k : α → κ)
    {l₁ l₂ : List α} (hp : l₁.Perm l₂)
    (htie : ∀ a ∈ l₁, ∀ b ∈ l₁, k a = k b → a = b) :
    sortByKey k l₁ = sortByKey k l₂ :=
  insertionSort_eq_of_perm (keyLe k) hp
    (fun a ha b hb h1 h2 => htie a ha b hb (le_antisymm h1 h2))

/-- Key-sorting an association list with duplicate-free keys is
determined by the multiset of entries. -/
theorem sortByKey_fst_eq_of_perm {β : Type} {d₁ d₂ : List (String × β)}
    (hp : d₁.Perm d₂) (hnd : (d₁.map Prod.fst).Nodup) :
    sortByKey Prod.fst d₁ = sortByKey Prod.fst d₂ :=
  sortByKey_eq_of_perm Prod.fst hp
    (fun _ ha _ hb h => List.inj_on_of_nodup_map hnd ha hb h)

/-- sorted(set(...)) is determined by the multiset. -/
theorem sorted_unique_perm {l₁ l₂ : List String} (hp : l₁.Perm l₂) :
    sorted_unique l₁ = sorted_unique l₂ :=
  insertionSort_eq_of_perm (· ≤ ·) hp.dedup
    (fun _ _ _ _ h1 h2 => le_antisymm h1 h2)

/-- Entrywise related association lists map to equal lists under a
value transform that respects the relation. -/
theorem forall₂_map_eq {β γ : Type} (f : β → β → Prop) (g : β → γ)
    (hg : ∀ b₁ b₂, f b₁ b₂ → g b₁ = g b₂) {m d : List (String × β)}
    (h : List.Forall₂ (fun p q => p.1 = q.1 ∧ f p.2 q.2) m d) :
    m.map (fun p => (p.1, g p.2)) = d.map (fun p => (p.1, g p.2)) := by
  induction h with
  | nil => rfl
  | cons hpq _ ih =>
    rw [List.map_cons, List.map_cons, hpq.1, hg _ _ hpq.2, ih]

/-- Key-sorting after a relation-respecting value transform is
invariant under DictEquiv. -/
theorem dictEquiv_sortByKey_map {β γ : Type} (f : β → β → Prop) (g : β → γ)
    (hg : ∀ b₁ b₂, f b₁ b₂ → g b₁ = g b₂) {d₁ d₂ : List (String × β)}
    (h : DictEquiv f d₁ d₂) :
    sortByKey Prod.fst (d₁.map fun p => (p.1, g p.2)) =
      sortByKey Prod.fst (d₂.map fun p => (p.1, g p.2)) := by
  obtain ⟨hnd, mid, hperm, hfa⟩ := h
  have hmap : (d₁.map fun p => (p.1, g p.2)).Perm
      (d₂.map fun p => (p.1, g p.2)) :=
    (hperm.map _).trans (by rw [forall₂_map_eq f g hg hfa])
  apply sortByKey_fst_eq_of_perm hmap
  have hkeys : ((d₁.map fun p => (p.1, g p.2)).map Prod.fst)
      = d₁.map Prod.fst := by
    rw [List.map_map]
    rfl
  rw [hkeys]
  exact hnd

/-- Entrywise equal association lists are equal. -/
theorem forall₂_eq_of_eq {β : Type} {m d : List (String × β)}
    (h : List.Forall₂ (fun p q : String × β => p.1 = q.1 ∧ p.2 = q.2) m d) :
    m = d := by
  induction h with
  | nil => rfl
  | cons hpq _ ih =>
    rw [ih, Prod.ext hpq.1 hpq.2]

/-- Key-sorting an association list is invariant under DictEquiv with
equal values. -/
theorem dictEquiv_sortByKey_id {β : Type} {d₁ d₂ : List (String × β)}
    (h : DictEquiv Eq d₁ d₂) :
    sortByKey Prod.fst d₁ = sortByKey Prod.fst d₂ := by
  obtain ⟨hnd, mid, hperm, hfa⟩ := h
  rw [forall₂_eq_of_eq hfa] at hperm
  exact sortByKey_fst_eq_of_perm hperm hnd

/-- The indexes normalization is invariant under IndexesEquiv. -/
theorem normalizeIndexes_equiv {i1 i2 : Indexes} (h : IndexesEquiv i1 i2) :
    normalizeIndexes i1 = normalizeIndexes i2 := by
  unfold normalizeIndexes
  exact dictEquiv_sortByKey_map
    (DictEquiv fun v₁ v₂ : List String => v₁.Perm v₂)
    (fun inner => sortByKey Prod.fst (inner.map fun q => (q.1, sorted_unique q.2)))
    (fun inner1 inner2 hin =>
      dictEquiv_sortByKey_map (fun v₁ v₂ => v₁.Perm v₂)
        (fun v => sorted_unique v)
        (fun v₁ v₂ hv => sorted_unique_perm hv) hin)
    h

/-- An entry of dictInsert is the inserted binding or an entry of the
original dict. -/
theorem mem_dictInsert {α : Type} {d : List (String × α)} {k : String}
    {v : α} {p : String × α} (h : p ∈ dictInsert d k v) :
    p = (k, v) ∨ p ∈ d := by
  induction d with
  | nil => simpa [dictInsert] using h
  | cons hd tl ih =>
    obtain ⟨k0, v0⟩ := hd
    by_cases hk : k0 = k
    · subst hk
      rw [dictInsert, if_pos rfl] at h
      rcases List.mem_cons.mp h with h | h
      · exact Or.inl h
      · exact Or.inr (List.mem_cons_of_mem _ h)
    · rw [dictInsert, if_neg hk] at h
      rcases List.mem_cons.mp h with h | h
      · exact Or.inr (List.mem_cons.mpr (Or.inl h))
      · rcases ih h with h | h
        · exact Or.inl h
        · exact Or.inr (List.mem_cons_of_mem _ h)

/-- A successful dict lookup is a member of the dict. -/
theorem dictLookup_some_mem {α : Type} {d : List (String × α)} {k : String}
    {v : α} (h : dictLookup d k = some v) : (k, v) ∈ d := by
  induction d with
  | nil => simp [dictLookup] at h
  | cons hd tl ih =>
    obtain ⟨k0, v0⟩ := hd
    by_cases hk : k0 = k
    · subst hk
      rw [dictLookup, if_pos rfl] at h
      obtain rfl := Option.some.injEq .. ▸ h
      exact List.mem_cons_self _ _
    · rw [dictLookup, if_neg hk] at h
      exact List.mem_cons_of_mem _ (ih h)

/-- Every entry of a dict built by folding dictInsert over a list comes
from the initial dict or from some list element. -/
theorem foldl_dictInsert_mem {α β : Type} (key : β → String) (val : β → α) :
    ∀ (l : List β) (d : List (String × α)) (p : String × α),
      p ∈ l.foldl (fun acc b => dictInsert acc (key b) (val b)) d →
      p ∈ d ∨ ∃ b ∈ l, p = (key b, val b) := by
  intro l
  induction l with
  | nil =>
    intro d p h
    exact Or.inl h
  | cons b tl ih =>
    intro d p h
    rcases ih (dictInsert d (key b) (val b)) p h with h1 | ⟨c, hc, rfl⟩
    · rcases mem_dictInsert h1 with h2 | h2
      · exact Or.inr ⟨b, List.mem_cons_self b tl, h2⟩
      · exact Or.inl h2
    · exact Or.inr ⟨c, List.mem_cons_of_mem b hc, rfl⟩

theorem insertAbsent_toFinset (acc : List String) (c : String) :
    (insertAbsent acc c).toFinset = insert c acc.toFinset := by
  by_cases h : c ∈ acc
  · rw [insertAbsent, if_pos h]
    exact (Finset.insert_eq_self.mpr (List.mem_toFinset.mpr h)).symm
  · rw [insertAbsent, if_neg h]
    ext x
    simp [or_comm]

theorem insertAbsent_nodup {acc : List String} (h : acc.Nodup) (c : String) :
    (insertAbsent acc c).Nodup := by
  by_cases hc : c ∈ acc
  · rw [insertAbsent, if_pos hc]
    exact h
  · rw [insertAbsent, if_neg hc]
    exact h.append (List.nodup_singleton c)
      (fun x hx hx' => by simp at hx'; subst hx'; exact hc hx)

theorem foldl_insertAbsent_toFinset (l : List String) :
    ∀ acc : List String,
      (l.foldl insertAbsent acc).toFinset = acc.toFinset ∪ l.toFinset := by
  induction l with
  | nil => intro acc; simp
  | cons c tl ih =>
    intro acc
    rw [List.foldl_cons, ih, insertAbsent_toFinset]
    ext x
    simp

theorem foldl_insertAbsent_nodup (l : List String) :
    ∀ {acc : List String}, acc.Nodup → (l.foldl insertAbsent acc).Nodup := by
  induction l with
  | nil => intro acc h; exact h
  | cons c tl ih =>
    intro acc h
    rw [List.foldl_cons]
    exact ih (insertAbsent_nodup h c)

theorem expandNode_toFinset (rev : String → List String) (seen : List String)
    (node : String) :
    (expandNode rev seen node).toFinset = seen.toFinset ∪ (rev node).toFinset :=
  foldl_insertAbsent_toFinset (rev node) seen

theorem expandNode_nodup (rev : String → List String) {seen : List String}
    (h : seen.Nodup) (node : String) : (expandNode rev seen node).Nodup :=
  foldl_insertAbsent_nodup (rev node) h

theorem foldl_expandNode_toFinset (rev : String → List String)
    (bs : List String) :
    ∀ seen : List String,
      (bs.foldl (expandNode rev) seen).toFinset =
        seen.toFinset ∪ bs.toFinset.biUnion fun b => (rev b).toFinset := by
  induction bs with
  | nil => intro seen; simp
  | cons c tl ih =>
    intro seen
    rw [List.foldl_cons, ih, expandNode_toFinset]
    ext x
    simp [Finset.mem_biUnion]

theorem foldl_expandNode_nodup (rev : String → List String)
    (bs : List String) :
    ∀ {seen : List String}, seen.Nodup →
      (bs.foldl (expandNode rev) seen).Nodup := by
  induction bs with
  | nil => intro seen h; exact h
  | cons c tl ih =>
    intro seen h
    rw [List.foldl_cons]
    exact ih (expandNode_nodup rev h c)

/-- The BFS of impact._reverse_reachable_depth_two computes, as a set,
the nodes reachable from the target by a reverse path of length one or
two — with no removal of the target itself. -/
theorem rrd2_toFinset (target : String) (rev : String → List String) :
    (reverse_reachable_depth_two target rev).toFinset =
      (rev target).toFinset
        ∪ (rev target).toFinset.biUnion fun b => (rev b).toFinset := by
  unfold reverse_reachable_depth_two
  have h1 : (expandNode rev [] target).toFinset = (rev target).toFinset := by
    rw [expandNode_toFinset]
    simp
  rw [foldl_expandNode_toFinset, h1]

theorem rrd2_nodup (target : String) (rev : String → List String) :
    (reverse_reachable_depth_two target rev).Nodup := by
  unfold reverse_reachable_depth_two
  exact foldl_expandNode_nodup rev _
    (foldl_insertAbsent_nodup (rev target) List.nodup_nil)

theorem rrd2_length (target : String) (rev : String → List String) :
    (reverse_reachable_depth_two target rev).length =
      ((rev target).toFinset
        ∪ (rev target).toFinset.biUnion fun b => (rev b).toFinset).card := by
  rw [← rrd2_toFinset]
  exact (List.toFinset_card_of_nodup (rrd2_nodup target rev)).symm

/-- Every branch of the mutation edge construction records the event's
source id as the edge source. -/
theorem resolveMutationEdge_source (symbols : List SymbolRec)
    (event : MutEvent) (sid : String) (s : SymbolRec) :
    (resolveMutationEdge symbols event sid s).source = sid := by
  unfold resolveMutationEdge
  dsimp only
  split <;> rfl

/-- The mutation event loop appends one edge per event whose source
symbol id resolves in the symbol table. -/
theorem mutFold_length (symbols : List SymbolRec) (muts : List MutEvent) :
    ∀ acc : List MutEdge,
      (muts.foldl (mutStep symbols) acc).length =
        acc.length + (muts.filter fun ev =>
          (ev.source_symbol_id.bind (dictLookup (symbolsById symbols))).isSome).length := by
  induction muts with
  | nil => intro acc; simp
  | cons ev tl ih =>
    intro acc
    rw [List.foldl_cons, ih]
    cases hsrc : ev.source_symbol_id with
    | none => simp [mutStep, hsrc, List.filter_cons]
    | some sid =>
      cases hl : dictLookup (symbolsById symbols) sid with
      | none => simp [mutStep, hsrc, hl, List.filter_cons]
      | some s =>
        simp [mutStep, hsrc, hl, List.filter_cons]
        omega

/-- An edge emitted by one mutation step is an old edge or the edge of
a table-resolved event. -/
theorem mem_mutStep {symbols : List SymbolRec} {acc : List MutEdge}
    {ev : MutEvent} {e : MutEdge} (h : e ∈ mutStep symbols acc ev) :
    e ∈ acc ∨ ∃ sid s, dictLookup (symbolsById symbols) sid = some s
      ∧ e = resolveMutationEdge symbols ev sid s := by
  unfold mutStep at h
  split at h
  next => exact Or.inl h
  next sid hsrc =>
    split at h
    next => exact Or.inl h
    next s hl =>
      rcases List.mem_append.mp h with h2 | h2
      · exact Or.inl h2
      · obtain rfl := List.mem_singleton.mp h2
        exact Or.inr ⟨sid, s, hl, rfl⟩

/-- Every edge the mutation event loop emits has as source the id of a
symbol found in the table. -/
theorem mutFold_mem (symbols : List SymbolRec) (muts : List MutEvent) :
    ∀ (acc : List MutEdge) (e : MutEdge),
      e ∈ muts.foldl (mutStep symbols) acc →
      e ∈ acc ∨ ∃ sid s, dictLookup (symbolsById symbols) sid = some s
        ∧ e.source = sid := by
  induction muts with
  | nil =>
    intro acc e h
    exact Or.inl h
  | cons ev tl ih =>
    intro acc e h
    rw [List.foldl_cons] at h
    rcases ih (mutStep symbols acc ev) e h with h1 | h1
    · rcases mem_mutStep h1 with h2 | ⟨sid, s, hl, rfl⟩
      · exact Or.inl h2
      · exact Or.inr ⟨sid, s, hl, resolveMutationEdge_source symbols ev sid s⟩
    · exact Or.inr h1

/-- A key of the symbolsById table is the id of one of the symbols. -/
theorem symbolsById_key_mem {symbols : List SymbolRec} {sid : String}
    {s : SymbolRec} (h : dictLookup (symbolsById symbols) sid = some s) :
    sid ∈ symbols.map (·.id) := by
  have hmem := dictLookup_some_mem h
  unfold symbolsById at hmem
  rcases foldl_dictInsert_mem (fun b => b.id) (fun b => b) symbols [] (sid, s) hmem
    with h1 | ⟨b, hb, he⟩
  · simp at h1
  · have h2 : sid = b.id := congrArg Prod.fst he
    exact h2 ▸ List.mem_map_of_mem (·.id) hb

/-- The code's guardrail chain computes the amended decision tree. -/
theorem guardrailTag_amended (culture : String) (dc fo uc : Nat) (umc : ℚ) :
    (guardrailTag culture dc fo uc umc).1 =
      guardrail_amended_tag culture dc fo uc umc := by
  unfold guardrailTag guardrail_amended_tag guardrail_amended_rules evalRules
  by_cases h1 : culture = "Auditor"
  · simp [h1, List.find?]
  · rw [if_neg h1]
    have b1 : decide (culture = "Auditor") = false := by simp [h1]
    by_cases h2 : 0 < uc ∧ umc < AMBIGUITY_CONFIDENCE_THRESHOLD
    · have b2 : (decide (0 < uc)
          && decide (umc < AMBIGUITY_CONFIDENCE_THRESHOLD)) = true := by
        simp [h2.1, h2.2]
      rw [if_pos h2]
      simp [List.find?, b1, b2]
    · have b2 : (decide (0 < uc)
          && decide (umc < AMBIGUITY_CONFIDENCE_THRESHOLD)) = false := by
        rcases not_and_or.mp h2 with h | h <;> simp [h]
      rw [if_neg h2]
      by_cases h3 : culture = "Law" ∧ LAW_HARD_BLOCK_CALLER_THRESHOLD ≤ dc
      · have b3 : (decide (culture = "Law")
            && decide (LAW_HARD_BLOCK_CALLER_THRESHOLD ≤ dc)) = true := by
          simp [h3.1, h3.2]
        rw [if_pos h3]
        simp [List.find?, b1, b2, b3]
      · have b3 : (decide (culture = "Law")
            && decide (LAW_HARD_BLOCK_CALLER_THRESHOLD ≤ dc)) = false := by
          rcases not_and_or.mp h3 with h | h <;> simp [h]
        rw [if_neg h3]
        by_cases h4 : culture = "View"
        · have b4 : decide (culture = "View") = true := by simp [h4]
          rw [if_pos h4]
          simp [List.find?, b1, b2, b3, b4]
        · have b4 : decide (culture = "View") = false := by simp [h4]
          rw [if_neg h4]
          by_cases h5 : 40 ≤ dc + fo
          · have b5 : decide (40 ≤ dc + fo) = true := by simp [h5]
            rw [if_pos h5]
            simp [List.find?, b1, b2, b3, b4, b5]
          · have b5 : decide (40 ≤ dc + fo) = false := by simp [h5]
            rw [if_neg h5]
            simp [List.find?, b1, b2, b3, b4, b5]

/- ## Claim theorems -/

/-- C1 counterexample: a Law-culture symbol with 50 direct callers, no
fan-out and no unresolved evidence.  The code returns
citizen_high_surface (its rule 5 tests only the connectivity
threshold), while the spec's decision tree — whose rule 5 applies only
to Citizen-culture symbols — returns allow_change_with_tests. -/
theorem C1_counterexample :
    (refactor_guardrail gLaw50 "LAW50").map (·.guardrail)
        = some "citizen_high_surface" ∧
    (refactor_guardrail gLaw50 "LAW50").map (·.culture) = some "Law" ∧
    (refactor_guardrail gLaw50 "LAW50").map (·.direct_callers) = some 50 ∧
    (refactor_guardrail gLaw50 "LAW50").map (·.fan_out) = some 0 ∧
    (refactor_guardrail gLaw50 "LAW50").map (·.unresolved_count) = some 0 ∧
    (refactor_guardrail gLaw50 "LAW50").map (·.unresolved_min_confidence)
        = some 1 ∧
    guardrail_spec_tag "Law" 50 0 0 1 = "allow_change_with_tests" ∧
    "citizen_high_surface" ≠ "allow_change_with_tests" := by
  refine ⟨?_, ?_, ?_, ?_, ?_, ?_, ?_, by decide⟩ <;>
    simp +decide [refactor_guardrail, symbolsById, filesById, dictInsert,
      dictLookup, gLaw50, lawSym50, lawFile, lawMetrics50, defaultMetrics,
      mkFun, guardrailTag, guardrail_spec_tag, guardrail_spec_rules, evalRules,
      List.find?, AMBIGUITY_CONFIDENCE_THRESHOLD,
      LAW_HARD_BLOCK_CALLER_THRESHOLD]

/-- C1 (amended): for every symbol known to the graph, refactor_guardrail
returns the tag of the decision tree evaluated in the spec's priority
order, with rule 5 testing only direct-callers + fan-out ≥ 40 (no
Citizen-culture restriction); hard_block is true exactly when rule 3
fires; and for a non-Auditor symbol, unresolved evidence with minimum
confidence below 0.75 yields high_risk_manual_review with
hard_block = false even when the Law hard-block rule would also fire. -/
theorem refactor_guardrail_decision (g : Graph) (sid : String)
    (r : GuardrailResult) (h : refactor_guardrail g sid = some r) :
    r.guardrail = guardrail_amended_tag r.culture r.direct_callers r.fan_out
        r.unresolved_count r.unresolved_min_confidence ∧
    (r.hard_block = true ↔ r.guardrail = "hard_block_signature_change") ∧
    (0 < r.unresolved_count →
      r.unresolved_min_confidence < AMBIGUITY_CONFIDENCE_THRESHOLD →
      r.culture ≠ "Auditor" →
      r.guardrail = "high_risk_manual_review" ∧ r.hard_block = false) := by
  unfold refactor_guardrail at h
  split at h
  next => exact absurd h (by simp)
  next symbol hl =>
    obtain rfl := Option.some.inj h
    refine ⟨guardrailTag_amended _ _ _ _ _, by simp, ?_⟩
    intro huc humc haud
    have htag : (guardrailTag
        (((dictLookup (filesById g.files) symbol.file).map (·.culture)).getD
          "Citizen")
        ((dictLookup g.impact.symbols sid).getD defaultMetrics).direct_callers
        ((dictLookup g.impact.symbols sid).getD defaultMetrics).fan_out
        ((dictLookup g.impact.symbols sid).getD defaultMetrics).unresolved_count
        ((dictLookup g.impact.symbols sid).getD
          defaultMetrics).unresolved_min_confidence).1
        = "high_risk_manual_review" := by
      unfold guardrailTag
      rw [if_neg haud, if_pos ⟨huc, humc⟩]
    exact ⟨htag, by simp [htag]⟩

/-- C1 witness: the Law symbol with 120 direct callers and 3 unresolved
edges at minimum confidence 0.2 gets high_risk_manual_review with
hard_block false. -/
theorem C1_witness :
    (refactor_guardrail gLawRisk "LAWR").map (·.guardrail)
        = some "high_risk_manual_review" ∧
    (refactor_guardrail gLawRisk "LAWR").map (·.hard_block) = some false := by
  have e1 : (refactor_guardrail gLawRisk "LAWR").map (·.culture)
      = some "Law" := by
    simp +decide [refactor_guardrail, symbolsById, filesById, dictInsert,
      dictLookup, gLawRisk, gLaw50, lawSymRisk, lawFile, lawRiskMetrics,
      defaultMetrics, mkFun]
  have e2 : (refactor_guardrail gLawRisk "LAWR").map (·.unresolved_count)
      = some 3 := by
    simp +decide [refactor_guardrail, symbolsById, filesById, dictInsert,
      dictLookup, gLawRisk, gLaw50, lawSymRisk, lawFile, lawRiskMetrics,
      defaultMetrics, mkFun]
  have e3 : (refactor_guardrail gLawRisk "LAWR").map
      (·.unresolved_min_confidence) = some (2/10) := by
    simp +decide [refactor_guardrail, symbolsById, filesById, dictInsert,
      dictLookup, gLawRisk, gLaw50, lawSymRisk, lawFile, lawRiskMetrics,
      defaultMetrics, mkFun]
  cases hr : refactor_guardrail gLawRisk "LAWR" with
  | none =>
    rw [hr] at e1
    simp at e1
  | some r =>
    rw [hr] at e1 e2 e3
    simp only [Option.map_some', Option.some.injEq] at e1 e2 e3
    have h3 := (refactor_guardrail_decision gLawRisk "LAWR" r hr).2.2
      (by rw [e2]; norm_num)
      (by rw [e3]; norm_num [AMBIGUITY_CONFIDENCE_THRESHOLD])
      (by rw [e1]; decide)
    simp [h3.1, h3.2]

/-- C2 counterexample: with three equally valid candidates the code's
ambiguous confidence is max(0.1, round(1/3, 4)) = 0.3333, not
max(0.1, 1/3) = 1/3 as the claim states. -/
theorem C2_counterexample :
    (resolve_calls c2Symbols [c2Call]).map (·.confidence) = [3333/10000] ∧
    (resolve_calls c2Symbols [c2Call]).map (·.resolution) = ["ambiguous"] ∧
    (pick_candidates c2Symbols c2Call).length = 3 ∧
    (3333/10000 : ℚ) ≠ max (1/10) (1/(3:ℚ)) := by
  refine ⟨?_, ?_, by decide, by norm_num⟩ <;>
    norm_num +decide [resolve_calls, resolveCallEdge, pick_candidates,
      by_name_arity, by_name, c2Symbols, c2Call, mkFun, sortByKey,
      List.insertionSort, List.orderedInsert, keyLe_def,
      String.le_iff_toList_le, round4, round_eq]

/-- C2 (amended): resolution produces exactly one edge per call event
(the final sort permutes them); one candidate gives a resolved edge
with confidence 1.0 carrying the target id, several candidates give an
ambiguous edge with no target, the sorted candidate-id list and
confidence max(0.1, 1/candidate-count rounded to 4 decimals), zero
candidates give an external edge with confidence 0.0 and no target. -/
theorem resolve_calls_per_event (symbols : List SymbolRec)
    (calls : List CallEvent) :
    (resolve_calls symbols calls).Perm (calls.map (resolveCallEdge symbols)) ∧
    (resolve_calls symbols calls).length = calls.length ∧
    ∀ call ∈ calls,
      ((pick_candidates symbols call).length = 1 →
        ∃ t, pick_candidates symbols call = [t] ∧
          (resolveCallEdge symbols call).resolution = "resolved" ∧
          (resolveCallEdge symbols call).confidence = 1 ∧
          (resolveCallEdge symbols call).target = some t.id ∧
          (resolveCallEdge symbols call).target_candidates = [t.id]) ∧
      (1 < (pick_candidates symbols call).length →
        (resolveCallEdge symbols call).resolution = "ambiguous" ∧
        (resolveCallEdge symbols call).target = none ∧
        (resolveCallEdge symbols call).confidence =
          max (1/10)
            (round4 (1 / ((pick_candidates symbols call).length : ℚ))) ∧
        (resolveCallEdge symbols call).target_candidates.Perm
          ((pick_candidates symbols call).map (·.id)) ∧
        (resolveCallEdge symbols call).target_candidates.Sorted (· ≤ ·)) ∧
      ((pick_candidates symbols call).length = 0 →
        (resolveCallEdge symbols call).resolution = "external" ∧
        (resolveCallEdge symbols call).confidence = 0 ∧
        (resolveCallEdge symbols call).target = none ∧
        (resolveCallEdge symbols call).target_candidates = []) := by
  have hperm : (resolve_calls symbols calls).Perm
      (calls.map (resolveCallEdge symbols)) :=
    List.perm_insertionSort (keyLe callEdgeKey) (calls.map (resolveCallEdge symbols))
  refine ⟨hperm, hperm.length_eq.trans (List.length_map _ _), ?_⟩
  intro call _
  cases hpc : pick_candidates symbols call with
  | nil =>
    refine ⟨?_, ?_, ?_⟩
    · intro h
      simp at h
    · intro h
      simp at h
    · intro _
      simp [resolveCallEdge, hpc]
  | cons a tl =>
    cases tl with
    | nil =>
      refine ⟨?_, ?_, ?_⟩
      · intro _
        exact ⟨a, rfl, by simp [resolveCallEdge, hpc]⟩
      · intro h
        simp at h
      · intro h
        simp at h
    | cons b tl2 =>
      refine ⟨?_, ?_, ?_⟩
      · intro h
        simp at h
      · intro _
        have hlen : ((((a :: b :: tl2).map (·.id)).insertionSort (· ≤ ·)).length : ℚ)
            = (((a :: b :: tl2) : List SymbolRec).length : ℚ) := by
          rw [List.length_insertionSort, List.length_map]
        refine ⟨by simp [resolveCallEdge, hpc], by simp [resolveCallEdge, hpc],
          ?_, ?_, ?_⟩
        · simp only [resolveCallEdge, hpc]
          rw [hlen]
        · simp only [resolveCallEdge, hpc]
          exact List.perm_insertionSort _ _
        · simp only [resolveCallEdge, hpc]
          exact List.sorted_insertionSort _ _
      · intro h
        simp at h

/-- C2 witness: the triple-candidate call yields one ambiguous edge
with the rounded confidence. -/
theorem C2_witness :
    (resolveCallEdge c2Symbols c2Call).resolution = "ambiguous" ∧
    (resolveCallEdge c2Symbols c2Call).target = none ∧
    (resolveCallEdge c2Symbols c2Call).confidence
      = max (1/10) (round4 (1 / ((pick_candidates c2Symbols c2Call).length : ℚ))) ∧
    (resolve_calls c2Symbols [c2Call]).length = 1 := by
  have h := resolve_calls_per_event c2Symbols [c2Call]
  have h3 := (h.2.2 c2Call (by simp)).2.1 (by decide)
  exact ⟨h3.1, h3.2.1, h3.2.2.1, h.2.1⟩

/-- Membership of a filtered function bucket implies membership of the
pool with function kind. -/
theorem mem_bucket_function {symbols : List SymbolRec} {s : SymbolRec}
    {p : SymbolRec → Bool} (hp : ∀ x, p x = true → x.kind = "function")
    (h : s ∈ symbols.filter p) : s ∈ symbols ∧ s.kind = "function" :=
  ⟨(List.mem_filter.mp h).1, hp s (List.mem_filter.mp h).2⟩

theorem firstNonEmpty_nil {α : Type} : firstNonEmpty ([] : List (List α)) = [] :=
  rfl

theorem firstNonEmpty_cons {α : Type} [DecidableEq α] (l : List α)
    (ls : List (List α)) :
    firstNonEmpty (l :: ls) = if l = [] then firstNonEmpty ls else l := by
  unfold firstNonEmpty
  by_cases h : l = []
  · rw [if_pos h, List.find?_cons_of_neg]
    simp [h]
  · rw [if_neg h, List.find?_cons_of_pos]
    · simp
    · simp [h]

/-- An element of firstNonEmpty comes from one of the lists. -/
theorem mem_firstNonEmpty {α : Type} {ls : List (List α)} {s : α}
    (h : s ∈ firstNonEmpty ls) : ∃ l ∈ ls, s ∈ l := by
  unfold firstNonEmpty at h
  cases hf : ls.find? (fun l => !l.isEmpty) with
  | none =>
    rw [hf] at h
    simp at h
  | some l =>
    rw [hf] at h
    exact ⟨l, List.mem_of_find?_eq_some hf, by simpa using h⟩

/-- C3: the candidate set is the first non-empty result of the lookup
keys tried from most to least specific — (qualifier, name, arity),
(qualifier, name), (name, arity), (name) — and only function-kind
symbols from the pool ever appear as candidates. -/
theorem pick_candidates_correct (symbols : List SymbolRec)
    (call : CallEvent) :
    pick_candidates symbols call = pick_candidates_spec symbols call ∧
    ∀ s ∈ pick_candidates symbols call,
      s ∈ symbols ∧ s.kind = "function" := by
  have heq : pick_candidates symbols call = pick_candidates_spec symbols call := by
    unfold pick_candidates pick_candidates_spec
    cases hq : call.qualifier with
    | none =>
      by_cases h3 : by_name_arity symbols call.callee_name call.arity = [] <;>
        by_cases h4 : by_name symbols call.callee_name = [] <;>
          simp [h3, h4, firstNonEmpty_cons, firstNonEmpty_nil]
    | some q =>
      by_cases hq0 : q = ""
      · by_cases h3 : by_name_arity symbols call.callee_name call.arity = [] <;>
          by_cases h4 : by_name symbols call.callee_name = [] <;>
            simp [hq0, h3, h4, firstNonEmpty_cons, firstNonEmpty_nil]
      · by_cases h1 : by_container_name_arity symbols q call.callee_name
            call.arity = [] <;>
          by_cases h2 : by_container_name symbols q call.callee_name = [] <;>
            by_cases h3 : by_name_arity symbols call.callee_name call.arity
                = [] <;>
              by_cases h4 : by_name symbols call.callee_name = [] <;>
                simp [hq0, h1, h2, h3, h4, firstNonEmpty_cons,
                  firstNonEmpty_nil]
  refine ⟨heq, ?_⟩
  intro s hs
  rw [heq] at hs
  obtain ⟨l, hl, hsl⟩ := mem_firstNonEmpty hs
  have hfun :
      (l = by_container_name_arity symbols (call.qualifier.getD "")
          call.callee_name call.arity ∨
        l = by_container_name symbols (call.qualifier.getD "")
          call.callee_name ∨
        l = by_name_arity symbols call.callee_name call.arity ∨
        l = by_name symbols call.callee_name) →
      s ∈ symbols ∧ s.kind = "function" := by
    intro hcase
    rcases hcase with rfl | rfl | rfl | rfl <;>
      refine mem_bucket_function ?_ hsl <;>
        intro x hx <;>
          simp only [Bool.and_eq_true, beq_iff_eq] at hx <;>
            tauto
  apply hfun
  cases hq : call.qualifier with
  | none =>
    rw [hq] at hl
    simp at hl
    rcases hl with rfl | rfl
    · exact Or.inr (Or.inr (Or.inl rfl))
    · exact Or.inr (Or.inr (Or.inr rfl))
  | some q =>
    rw [hq] at hl
    by_cases hq0 : q = ""
    · simp [hq0] at hl
      rcases hl with rfl | rfl
      · exact Or.inr (Or.inr (Or.inl rfl))
      · exact Or.inr (Or.inr (Or.inr rfl))
    · simp [hq0] at hl
      rcases hl with rfl | rfl | rfl | rfl
      · exact Or.inl rfl
      · exact Or.inr (Or.inl rfl)
      · exact Or.inr (Or.inr (Or.inl rfl))
      · exact Or.inr (Or.inr (Or.inr rfl))

/-- C3 witness: in the A.tick/B.tick/C.run pool, the A-qualified call
to tick picks exactly A.tick, a function symbol of the pool. -/
theorem C3_witness :
    pick_candidates exSymbols exQualCall
        = pick_candidates_spec exSymbols exQualCall ∧
    (tickA ∈ exSymbols ∧ tickA.kind = "function") := by
  refine ⟨(pick_candidates_correct exSymbols exQualCall).1, ?_⟩
  exact (pick_candidates_correct exSymbols exQualCall).2 tickA (by decide)

/-- C4 counterexample: on the resolved-call 2-cycle A -> B -> A, the
impact engine counts depth2_callers(A) = 2, including A itself, while
the claimed count — reachable set excluding the symbol itself — is 1. -/
theorem C4_counterexample :
    (impactMetrics cycEdges [] [] cycSymA).depth2_callers = 2 ∧
    depth2_callers_spec cycSymA.id (callersList cycEdges) = 1 ∧
    (2 : ℕ) ≠ 1 := by
  refine ⟨by decide, by decide, by decide⟩

/-- C4 (amended): the depth-2-caller count equals the size of the set
of symbols reachable by a reverse resolved-call path of length one or
two — with no exclusion of the symbol itself, which is therefore
counted whenever it lies on a call cycle of length one or two. -/
theorem impact_depth2_callers (edges_calls : List CallEdge)
    (edges_mutations : List MutEdge) (culture_by_file : List (String × String))
    (sym : SymbolRec) :
    (impactMetrics edges_calls edges_mutations culture_by_file
        sym).depth2_callers =
      ((callersList edges_calls sym.id).toFinset
        ∪ (callersList edges_calls sym.id).toFinset.biUnion
            fun b => (callersList edges_calls b).toFinset).card :=
  rrd2_length sym.id (callersList edges_calls)

/-- Auxiliary: a flatten of all-empty lists is empty. -/
theorem flatten_eq_nil_of_forall {α : Type} :
    ∀ {L : List (List α)}, (∀ l ∈ L, l = []) → L.flatten = [] := by
  intro L h
  induction L with
  | nil => rfl
  | cons a t ih =>
    rw [List.flatten_cons, h a (List.mem_cons_self a t),
      ih fun l hl => h l (List.mem_cons_of_mem a hl)]
    rfl

/-- C5 counterexample: the Citizen symbol whose only unresolved edge is
an ambiguous mutation edge with confidence 0.5 is waved through with
allow_change_with_tests: the impact table the guardrail consults counts
no unresolved evidence for it, so the fail-closed rule never fires. -/
theorem C5_counterexample :
    gCit.edges_mutations = [citMutEdge] ∧
    citMutEdge.resolution = "ambiguous" ∧
    citMutEdge.confidence < AMBIGUITY_CONFIDENCE_THRESHOLD ∧
    gCit.impact = compute_impact gCit.symbols gCit.edges_calls
      gCit.edges_mutations [(citFile.id, "Citizen")] ∧
    (refactor_guardrail gCit citSym.id).map (·.culture) = some "Citizen" ∧
    (refactor_guardrail gCit citSym.id).map (·.unresolved_count) = some 0 ∧
    (refactor_guardrail gCit citSym.id).map (·.guardrail)
      = some "allow_change_with_tests" ∧
    "allow_change_with_tests" ≠ "high_risk_manual_review" := by
  refine ⟨rfl, rfl,
    by norm_num [citMutEdge, AMBIGUITY_CONFIDENCE_THRESHOLD], rfl,
    ?_, ?_, ?_, by decide⟩ <;>
    simp +decide [refactor_guardrail, symbolsById, filesById, dictInsert,
      dictLookup, gCit, citSym, citFile, citMutEdge, mkFun, guardrailTag,
      compute_impact, impactMetrics, dictAppend, sortByKey,
      List.insertionSort, List.orderedInsert, callersList, calleesList,
      reverse_reachable_depth_two, expandNode, insertAbsent,
      unresolvedOutbound, unresolvedInbound, optTruthy, fileMetricsOf,
      is_public_visibility, qMin, qMax, culture_multiplier, round4,
      defaultMetrics, AMBIGUITY_CONFIDENCE_THRESHOLD,
      LAW_HARD_BLOCK_CALLER_THRESHOLD]

/-- C5 (amended): the unresolved statistics the guardrail consults are
computed from call edges only.  For a symbol touched by no ambiguous or
external call edge (as source or candidate target), unresolved_count is
0 and unresolved_min_confidence is 1.0 no matter what mutation edges
exist, the statistics are invariant under any change of the mutation
edge list, and the fail-closed high_risk_manual_review tag is never
produced for such a symbol, whatever its culture and counts. -/
theorem unresolved_stats_call_edges_only (edges_calls : List CallEdge)
    (em em' : List MutEdge) (cb : List (String × String)) (sym : SymbolRec)
    (h : ∀ e ∈ edges_calls,
      (e.resolution = "ambiguous" ∨ e.resolution = "external") →
      e.source ≠ sym.id ∧ sym.id ∉ e.target_candidates) :
    (impactMetrics edges_calls em cb sym).unresolved_count = 0 ∧
    (impactMetrics edges_calls em cb sym).unresolved_min_confidence = 1 ∧
    (impactMetrics edges_calls em cb sym).unresolved_count
      = (impactMetrics edges_calls em' cb sym).unresolved_count ∧
    (impactMetrics edges_calls em cb sym).unresolved_min_confidence
      = (impactMetrics edges_calls em' cb sym).unresolved_min_confidence ∧
    ∀ culture : String, ∀ dc fo : Nat,
      (guardrailTag culture dc fo
        (impactMetrics edges_calls em cb sym).unresolved_count
        (impactMetrics edges_calls em cb sym).unresolved_min_confidence).1
        ≠ "high_risk_manual_review" := by
  have hout : unresolvedOutbound edges_calls sym.id = [] := by
    unfold unresolvedOutbound
    have hf : edges_calls.filter (fun e =>
        (e.resolution == "ambiguous" || e.resolution == "external")
          && e.source != "" && e.source == sym.id) = [] := by
      rw [List.filter_eq_nil_iff]
      intro e he hp
      simp only [Bool.and_eq_true, Bool.or_eq_true, beq_iff_eq,
        bne_iff_ne] at hp
      exact (h e he hp.1.1).1 hp.2
    rw [hf]
    rfl
  have hin : unresolvedInbound edges_calls sym.id = [] := by
    unfold unresolvedInbound
    apply flatten_eq_nil_of_forall
    intro l hl
    obtain ⟨e, he, rfl⟩ := List.mem_map.mp hl
    have he2 := List.mem_filter.mp he
    simp only [Bool.and_eq_true, Bool.or_eq_true, beq_iff_eq,
      bne_iff_ne] at he2
    have hcand : sym.id ∉ e.target_candidates := (h e he2.1 he2.2.1).2
    have hfc : e.target_candidates.filter (· == sym.id) = [] := by
      rw [List.filter_eq_nil_iff]
      intro c hc hcp
      simp only [beq_iff_eq] at hcp
      exact hcand (hcp ▸ hc)
    rw [hfc]
    rfl
  have hscores : unresolvedOutbound edges_calls sym.id
      ++ unresolvedInbound edges_calls sym.id = [] := by
    rw [hout, hin]
    rfl
  have hcount : (impactMetrics edges_calls em cb sym).unresolved_count = 0 := by
    show (unresolvedOutbound edges_calls sym.id
      ++ unresolvedInbound edges_calls sym.id).length = 0
    rw [hscores]
    rfl
  have hmin : (impactMetrics edges_calls em cb sym).unresolved_min_confidence
      = 1 := by
    show (if (unresolvedOutbound edges_calls sym.id
        ++ unresolvedInbound edges_calls sym.id) = ([] : List ℚ) then (1 : ℚ)
      else round4 (qMin (unresolvedOutbound edges_calls sym.id
        ++ unresolvedInbound edges_calls sym.id))) = 1
    rw [if_pos hscores]
  refine ⟨hcount, hmin, rfl, rfl, ?_⟩
  intro culture dc fo
  rw [hcount, hmin]
  unfold guardrailTag
  split_ifs with h1 h2 h3 h4 h5 <;> simp_all

/-- C5 witness: with no call edges at all and one ambiguous mutation
edge, the Citizen symbol's unresolved statistics are empty and the
fail-closed tag is not produced. -/
theorem C5_witness :
    (impactMetrics [] [citMutEdge] [(citFile.id, "Citizen")]
        citSym).unresolved_count = 0 ∧
    (impactMetrics [] [citMutEdge] [(citFile.id, "Citizen")]
        citSym).unresolved_min_confidence = 1 ∧
    (guardrailTag "Citizen" 0 0
      (impactMetrics [] [citMutEdge] [(citFile.id, "Citizen")]
        citSym).unresolved_count
      (impactMetrics [] [citMutEdge] [(citFile.id, "Citizen")]
        citSym).unresolved_min_confidence).1 ≠ "high_risk_manual_review" := by
  have h := unresolved_stats_call_edges_only [] [citMutEdge] []
    [(citFile.id, "Citizen")] citSym (by simp)
  exact ⟨h.1, h.2.1, h.2.2.2.2 "Citizen" 0 0⟩

/-- C6: every entry of the per-symbol impact table comes from a symbol
of the input, and its composite score is (direct-callers x 1.0 +
depth-2-callers x 0.5 + fan-out x 0.7 + mutation-count x 0.35 + 2.0 if
the symbol's visibility is public or open) x the file's culture
multiplier (Law 1.4, View 0.8, Auditor 0.2, Citizen 1.0), rounded to 4
decimal places. -/
theorem compute_impact_score (symbols : List SymbolRec)
    (edges_calls : List CallEdge) (edges_mutations : List MutEdge)
    (culture_by_file : List (String × String)) (sid : String) (m : Metrics)
    (h : dictLookup (compute_impact symbols edges_calls edges_mutations
        culture_by_file).symbols sid = some m) :
    (∃ sym ∈ symbols, sid = sym.id ∧
      m = impactMetrics edges_calls edges_mutations culture_by_file sym ∧
      m.culture_multiplier = culture_multiplier
        ((dictLookup culture_by_file sym.file).getD "Citizen") ∧
      m.public_api = is_public_visibility sym.visibility) ∧
    m.score = round4 (((m.direct_callers : ℚ) * 1
        + (m.depth2_callers : ℚ) * (5/10) + (m.fan_out : ℚ) * (7/10)
        + (m.mutation_count : ℚ) * (35/100)
        + (if m.public_api then 2 else 0)) * m.culture_multiplier) ∧
    culture_multiplier "Law" = 14/10 ∧ culture_multiplier "View" = 8/10 ∧
    culture_multiplier "Auditor" = 2/10 ∧ culture_multiplier "Citizen" = 1 := by
  have hmem := dictLookup_some_mem h
  have hperm : (compute_impact symbols edges_calls edges_mutations
      culture_by_file).symbols.Perm
      (symbols.foldl (fun d sym => dictInsert d sym.id
        (impactMetrics edges_calls edges_mutations culture_by_file sym)) []) :=
    List.perm_insertionSort _ _
  have hmem2 := hperm.subset hmem
  rcases foldl_dictInsert_mem (fun s => s.id)
      (fun s => impactMetrics edges_calls edges_mutations culture_by_file s)
      symbols [] (sid, m) hmem2 with h1 | ⟨sym, hsym, he⟩
  · simp at h1
  · have hid : sid = sym.id := congrArg Prod.fst he
    have hm : m = impactMetrics edges_calls edges_mutations culture_by_file
        sym := congrArg Prod.snd he
    refine ⟨⟨sym, hsym, hid, hm, by rw [hm]; rfl, by rw [hm]; rfl⟩,
      by rw [hm]; rfl, rfl, rfl, rfl, rfl⟩

/-- C6 witness: the score equation instantiated at the entry the impact
engine computes for the symbol A of the 2-cycle example. -/
theorem C6_witness :
    (impactMetrics cycEdges [] [] cycSymA).score
      = round4 ((((impactMetrics cycEdges [] [] cycSymA).direct_callers : ℚ) * 1
        + ((impactMetrics cycEdges [] [] cycSymA).depth2_callers : ℚ) * (5/10)
        + ((impactMetrics cycEdges [] [] cycSymA).fan_out : ℚ) * (7/10)
        + ((impactMetrics cycEdges [] [] cycSymA).mutation_count : ℚ) * (35/100)
        + (if (impactMetrics cycEdges [] [] cycSymA).public_api then 2 else 0))
        * (impactMetrics cycEdges [] [] cycSymA).culture_multiplier) ∧
    culture_multiplier "Law" = 14/10 ∧ culture_multiplier "Auditor" = 2/10 := by
  have h := compute_impact_score [cycSymA] cycEdges [] [] cycSymA.id
    (impactMetrics cycEdges [] [] cycSymA) rfl
  exact ⟨h.2.1, h.2.2.1, h.2.2.2.2.1⟩

/-- C7 counterexample: two distinct external call edges that differ
only in arity share the composite sort key, so the stable sort keeps
their input order and normalize_graph maps the two input permutations
of the same multiset to different normalized documents. -/
theorem C7_counterexample :
    gTieA.edges_calls.Perm gTieB.edges_calls ∧
    gTieA.meta = gTieB.meta ∧
    gTieA.files = gTieB.files ∧
    gTieA.symbols = gTieB.symbols ∧
    gTieA.edges_mutations = gTieB.edges_mutations ∧
    gTieA.edges_depends_on = gTieB.edges_depends_on ∧
    gTieA.impact = gTieB.impact ∧
    gTieA.indexes = gTieB.indexes ∧
    tieEdge1 ≠ tieEdge2 ∧
    callEdgeKey tieEdge1 = callEdgeKey tieEdge2 ∧
    normalize_graph gTieA ≠ normalize_graph gTieB := by
  refine ⟨List.Perm.swap tieEdge2 tieEdge1 [], rfl, rfl, rfl, rfl, rfl, rfl,
    rfl, ?_, rfl, ?_⟩
  · intro h
    have h2 := congrArg CallEdge.arity h
    simp [tieEdge1, tieEdge2] at h2
  · intro h
    have h2 := congrArg Graph.edges_calls h
    simp +decide [normalize_graph, gTieA, gTieB, tieEdge1, tieEdge2, sortByKey,
      List.insertionSort, List.orderedInsert, keyLe_def, callEdgeKey,
      Prod.Lex.le_iff, String.le_iff_toList_le, String.lt_iff_toList_lt] at h2

/-- C7 (amended): normalize_graph maps any two permutations of the same
graph sections — and any entry orderings of the impact and index
mappings, with index id lists agreeing as multisets — to the same
normalized document, provided no two distinct records of a list
section share that section's composite sort key (true of the mapping
sections automatically, since dict keys are unique).  Serialization of
equal normalized documents is byte-identical; the proviso is necessary
by the counterexample. -/
theorem normalize_graph_order_independent (g1 g2 : Graph)
    (hmeta : g1.meta = g2.meta)
    (hfiles : g1.files.Perm g2.files)
    (hfilesk : ∀ a ∈ g1.files, ∀ b ∈ g1.files, a.path = b.path → a = b)
    (hsyms : g1.symbols.Perm g2.symbols)
    (hsymsk : ∀ a ∈ g1.symbols, ∀ b ∈ g1.symbols, a.id = b.id → a = b)
    (hcalls : g1.edges_calls.Perm g2.edges_calls)
    (hcallsk : ∀ a ∈ g1.edges_calls, ∀ b ∈ g1.edges_calls,
      callEdgeKey a = callEdgeKey b → a = b)
    (hmuts : g1.edges_mutations.Perm g2.edges_mutations)
    (hmutsk : ∀ a ∈ g1.edges_mutations, ∀ b ∈ g1.edges_mutations,
      mutEdgeNormKey a = mutEdgeNormKey b → a = b)
    (hdeps : g1.edges_depends_on.Perm g2.edges_depends_on)
    (hdepsk : ∀ a ∈ g1.edges_depends_on, ∀ b ∈ g1.edges_depends_on,
      depEdgeKey a = depEdgeKey b → a = b)
    (himpS : g1.impact.symbols.Perm g2.impact.symbols)
    (himpSk : (g1.impact.symbols.map Prod.fst).Nodup)
    (himpF : g1.impact.files.Perm g2.impact.files)
    (himpFk : (g1.impact.files.map Prod.fst).Nodup)
    (hidx : IndexesEquiv g1.indexes g2.indexes) :
    normalize_graph g1 = normalize_graph g2 := by
  unfold normalize_graph
  rw [hmeta,
    sortByKey_eq_of_perm (·.path) hfiles hfilesk,
    sortByKey_eq_of_perm (·.id) hsyms hsymsk,
    sortByKey_eq_of_perm callEdgeKey hcalls hcallsk,
    sortByKey_eq_of_perm mutEdgeNormKey hmuts hmutsk,
    sortByKey_eq_of_perm depEdgeKey hdeps hdepsk,
    sortByKey_fst_eq_of_perm himpS himpSk,
    sortByKey_fst_eq_of_perm himpF himpFk,
    normalizeIndexes_equiv hidx]

/-- C7 witness: a two-file snapshot assembled in two different orders,
with an index id list permuted and carrying a duplicate, normalizes to
the same document. -/
theorem C7_witness : normalize_graph g7w1 = normalize_graph g7w2 := by
  apply normalize_graph_order_independent
  · rfl
  · exact List.Perm.swap w7File2 w7File1 []
  · decide
  · exact List.Perm.refl _
  · decide
  · exact List.Perm.refl _
  · intro a ha
    simp [g7w1] at ha
  · exact List.Perm.refl _
  · intro a ha
    simp [g7w1] at ha
  · exact List.Perm.refl _
  · intro a ha
    simp [g7w1] at ha
  · exact List.Perm.refl _
  · simp [g7w1]
  · exact List.Perm.refl _
  · simp [g7w1]
  · refine ⟨by decide, g7w1.indexes, List.Perm.refl _, ?_⟩
    refine List.Forall₂.cons ⟨rfl, ?_⟩ List.Forall₂.nil
    refine ⟨by decide, [("/a.swift", ["s2", "s1", "s1"])],
      List.Perm.refl _, ?_⟩
    refine List.Forall₂.cons ⟨rfl, ?_⟩ List.Forall₂.nil
    exact (List.Perm.swap "s1" "s2" ["s1"]).trans
      (List.Perm.cons "s1" (List.Perm.swap "s1" "s2" []))

/-- C8: when a previously persisted graph exists and its content digest
equals the new build's digest, the persisted generated_at,
build_duration_ms, files_reparsed and files_reused are the previous
build's values unchanged; when the digests differ (or no graph was
persisted), the fresh build's own values are used. -/
theorem persisted_build_fields_correct (g : Graph) (digest : String)
    (fresh : BuildMetaFields) :
    (g.meta.content_digest = digest →
      persistedBuildFields (some g) digest fresh =
        { generated_at := g.meta.generated_at
          build_duration_ms := g.meta.build_duration_ms
          files_reparsed := g.meta.files_reparsed
          files_reused := g.meta.files_reused }) ∧
    (g.meta.content_digest ≠ digest →
      persistedBuildFields (some g) digest fresh = fresh) ∧
    persistedBuildFields none digest fresh = fresh := by
  refine ⟨?_, ?_, rfl⟩
  · intro h
    simp [persistedBuildFields, h]
  · intro h
    simp [persistedBuildFields, h]

/-- C8 witness: a matching digest preserves the stored fields, a
differing digest yields the fresh ones. -/
theorem C8_witness :
    persistedBuildFields (some gLaw50) "digest-a" freshFieldsW =
      { generated_at := exMeta.generated_at
        build_duration_ms := exMeta.build_duration_ms
        files_reparsed := exMeta.files_reparsed
        files_reused := exMeta.files_reused } ∧
    persistedBuildFields (some gLaw50) "digest-b" freshFieldsW
      = freshFieldsW :=
  ⟨(persisted_build_fields_correct gLaw50 "digest-a" freshFieldsW).1 rfl,
    (persisted_build_fields_correct gLaw50 "digest-b" freshFieldsW).2.1
      (by decide)⟩

/-- C9 counterexample: a graph with a mutation edge whose source names
no symbol still passes the doctor check with an empty error list —
mutation edges are never examined. -/
theorem C9_counterexample :
    doctor_check_ok gGhost = true ∧
    gGhost.edges_mutations.length = 1 ∧
    (∀ e ∈ gGhost.edges_mutations, e.source = "ghost") ∧
    "ghost" ∉ gGhost.symbols.map (·.id) := by
  refine ⟨by decide, by decide, by decide, by decide⟩

/-- C9 (amended): a successful doctor check guarantees the schema
version matches, every non-empty call-edge endpoint names an existing
symbol, every dependency-edge endpoint names an existing file, and
every id in the symbols_by_file index names an existing symbol;
mutation edges and the other index mappings are not checked. -/
theorem doctor_check_complete (g : Graph)
    (h : doctor_check_errors g = []) :
    g.meta.schema_version = SCHEMA_VERSION ∧
    (∀ e ∈ g.edges_calls,
      (e.source ≠ "" → e.source ∈ g.symbols.map (·.id)) ∧
      (∀ t, e.target = some t → t ≠ "" → t ∈ g.symbols.map (·.id))) ∧
    (∀ e ∈ g.edges_depends_on,
      e.source_file ∈ g.files.map (·.id)
        ∧ e.target_file ∈ g.files.map (·.id)) ∧
    (∀ p ∈ (dictLookup g.indexes "symbols_by_file").getD [],
      ∀ sid ∈ p.2, sid ∈ g.symbols.map (·.id)) := by
  have h0 : validate_graph_shape g
      ++ (g.edges_calls.map fun e =>
        (if e.source != "" && !((g.symbols.map (·.id)).contains e.source) then
          ["call edge source missing symbol: " ++ e.source]
        else []) ++
        (if optTruthy e.target
            && !((g.symbols.map (·.id)).contains (e.target.getD "")) then
          ["call edge target missing symbol: " ++ e.target.getD ""]
        else [])).flatten
      ++ (g.edges_depends_on.map fun e =>
        (if !((g.files.map (·.id)).contains e.source_file) then
          ["dependency edge source file missing: " ++ e.source_file]
        else []) ++
        (if !((g.files.map (·.id)).contains e.target_file) then
          ["dependency edge target file missing: " ++ e.target_file]
        else [])).flatten
      ++ (((dictLookup g.indexes "symbols_by_file").getD []).map
        fun p => (p.2.filter fun sid =>
            !((g.symbols.map (·.id)).contains sid)).map
          fun sid => "index references missing symbol: " ++ sid).flatten
      = [] := h
  obtain ⟨h1, hIdx⟩ := List.append_eq_nil.mp h0
  obtain ⟨h2, hDep⟩ := List.append_eq_nil.mp h1
  obtain ⟨hVal, hCall⟩ := List.append_eq_nil.mp h2
  refine ⟨?_, ?_, ?_, ?_⟩
  · by_contra hs
    rw [validate_graph_shape, if_neg hs] at hVal
    simp at hVal
  · intro e he
    have hc : ((if e.source != ""
          && !((g.symbols.map (·.id)).contains e.source) then
        ["call edge source missing symbol: " ++ e.source]
      else []) ++
      (if optTruthy e.target
          && !((g.symbols.map (·.id)).contains (e.target.getD "")) then
        ["call edge target missing symbol: " ++ e.target.getD ""]
      else [])) = [] :=
      List.flatten_eq_nil_iff.mp hCall _ (List.mem_map_of_mem _ he)
    obtain ⟨hc1, hc2⟩ := List.append_eq_nil.mp hc
    constructor
    · intro hsrc
      by_contra hmem
      rw [if_pos] at hc1
      · simp at hc1
      · simp [hsrc]
        simpa using hmem
    · intro t ht htne
      by_contra hmem
      rw [if_pos] at hc2
      · simp at hc2
      · simp [optTruthy, ht, htne]
        simpa using hmem
  · intro e he
    have hc : ((if !((g.files.map (·.id)).contains e.source_file) then
        ["dependency edge source file missing: " ++ e.source_file]
      else []) ++
      (if !((g.files.map (·.id)).contains e.target_file) then
        ["dependency edge target file missing: " ++ e.target_file]
      else [])) = [] :=
      List.flatten_eq_nil_iff.mp hDep _ (List.mem_map_of_mem _ he)
    obtain ⟨hc1, hc2⟩ := List.append_eq_nil.mp hc
    constructor
    · by_contra hmem
      rw [if_pos] at hc1
      · simp at hc1
      · simpa using hmem
    · by_contra hmem
      rw [if_pos] at hc2
      · simp at hc2
      · simpa using hmem
  · intro p hp sid hsid
    have hc : ((p.2.filter fun sid =>
        !((g.symbols.map (·.id)).contains sid)).map
      fun sid => "index references missing symbol: " ++ sid) = [] :=
      List.flatten_eq_nil_iff.mp hIdx _ (List.mem_map_of_mem _ hp)
    have hf : (p.2.filter fun sid =>
        !((g.symbols.map (·.id)).contains sid)) = [] :=
      List.map_eq_nil_iff.mp hc
    by_contra hmem
    have : sid ∈ (p.2.filter fun sid =>
        !((g.symbols.map (·.id)).contains sid)) := by
      rw [List.mem_filter]
      refine ⟨hsid, ?_⟩
      simpa using hmem
    rw [hf] at this
    simp at this

/-- C9 witness: the passing graph of the counterexample instantiates
the guarantees the doctor check does give. -/
theorem C9_witness :
    gGhost.meta.schema_version = SCHEMA_VERSION ∧
    citSym.id ∈ gGhost.symbols.map (·.id) := by
  have h := doctor_check_complete gGhost (by decide)
  refine ⟨h.1, ?_⟩
  exact h.2.2.2 (citFile.id, [citSym.id]) (by decide) citSym.id (by decide)

/-- C10: mutation resolution drops orphan events silently: the number
of emitted edges equals the number of events whose source symbol id
resolves in the symbol table (hence never exceeds the event count),
and every emitted edge's source is an existing symbol id. -/
theorem resolve_mutation_edges_orphans (symbols : List SymbolRec)
    (mutations : List MutEvent) :
    (resolve_mutation_edges symbols mutations).length
      = (mutations.filter fun ev =>
          (ev.source_symbol_id.bind
            (dictLookup (symbolsById symbols))).isSome).length ∧
    (resolve_mutation_edges symbols mutations).length ≤ mutations.length ∧
    ∀ e ∈ resolve_mutation_edges symbols mutations,
      e.source ∈ symbols.map (·.id) := by
  have hlen : (resolve_mutation_edges symbols mutations).length
      = (mutations.filter fun ev =>
          (ev.source_symbol_id.bind
            (dictLookup (symbolsById symbols))).isSome).length := by
    have hp : (resolve_mutation_edges symbols mutations).length
        = (mutations.foldl (mutStep symbols) []).length :=
      (List.perm_insertionSort (keyLe mutEdgeSortKey) _).length_eq
    rw [hp, mutFold_length symbols mutations []]
    simp
  refine ⟨hlen, hlen ▸ List.length_filter_le _ _, ?_⟩
  intro e he
  have he2 : e ∈ mutations.foldl (mutStep symbols) [] :=
    (List.perm_insertionSort (keyLe mutEdgeSortKey) _).subset he
  rcases mutFold_mem symbols mutations [] e he2 with h1 | ⟨sid, s, hl, hsrc⟩
  · simp at h1
  · exact hsrc ▸ symbolsById_key_mem hl

/-- C10 witness: of two mutation events, the orphan one is dropped —
one edge for two events — and the emitted edge's source is an existing
symbol id. -/
theorem C10_witness :
    (resolve_mutation_edges [varX, funF] [goodMut, orphanMut]).length
      = ([goodMut, orphanMut].filter fun ev =>
          (ev.source_symbol_id.bind
            (dictLookup (symbolsById [varX, funF]))).isSome).length ∧
    ([goodMut, orphanMut].filter fun ev =>
        (ev.source_symbol_id.bind
          (dictLookup (symbolsById [varX, funF]))).isSome).length = 1 ∧
    ([goodMut, orphanMut] : List MutEvent).length = 2 ∧
    resolvedEdgeW.source ∈ ([varX, funF] : List SymbolRec).map (·.id) := by
  have h := resolve_mutation_edges_orphans [varX, funF] [goodMut, orphanMut]
  refine ⟨h.1, by decide, by decide, ?_⟩
  apply h.2.2 resolvedEdgeW
  decide

end SemIdx
